import Mathlib

/-!
Verification of the StellarSQL core against its specification.

This file shallowly embeds the parts of the StellarSQL source that the
checked claims are about:

* `src/storage/bytescoder.rs` — fixed-width attribute encoding (`BytesCoder`);
* `src/storage/file.rs`       — row-file `fetch_rows` / `delete_rows`;
* `src/component/table.rs`    — `Table` row operations and filtering;
* `src/sql/lexer.rs`          — `Scanner::scan_tokens`;
* `src/sql/parser.rs`         — statement parsing and predicate translation;
* `src/sql/worker.rs`         — the `SQL` session (`select`, `table_predicate`);
* `src/manager/pool.rs`       — the LRU session pool;
* `src/connection/request.rs` — the wire-protocol `Request::parse`.

Machine integers are embedded as `Nat`/`Int` with explicit modular reasoning.
Strings that the Rust code manipulates byte-wise are embedded as `List Nat`
(one `Nat` per byte).  Rust `f32`/`f64` values appear only through
`str::parse` and `to_string`; where a claim's truth does not depend on the
concrete float semantics these two functions are taken as parameters (the
encode/decode layer moves bit patterns, embedded as `Nat`, untouched), and
where concrete comparisons are needed (`operator_filter_rows`) decimal
literals are compared by exact value, which agrees with IEEE-754 comparison
whenever the literals round to distinct floats, as all literals appearing in
this development do.
-/

namespace StellarSQL

/-! ## Byte-level helpers (shared by the BytesCoder and File embeddings) -/

/-- Big-endian byte encoding of a `Nat` into `w` bytes (low bytes last),
as produced by `byteorder::BigEndian` writes in `bytescoder.rs`. -/
def natToBytesBE : Nat → Nat → List Nat
  | 0, _ => []
  | w + 1, v => natToBytesBE w (v / 256) ++ [v % 256]

/-- Big-endian byte decoding, as performed by `byteorder::BigEndian` reads. -/
def bytesToNatBE (bs : List Nat) : Nat := bs.foldl (fun a b => a * 256 + b) 0

/-- Two's-complement 32-bit pattern of an `i32` value. -/
def i32ToBits (v : Int) : Nat := (v % ((2 : Int) ^ 32)).toNat

/-- The `i32` value of a 32-bit pattern. -/
def bitsToI32 (n : Nat) : Int := if n < 2 ^ 31 then (n : Int) else (n : Int) - 2 ^ 32

theorem length_natToBytesBE (w v : Nat) : (natToBytesBE w v).length = w := by
  induction w generalizing v with
  | zero => rfl
  | succ w ih => simp [natToBytesBE, ih]

theorem bytesToNatBE_append_singleton (bs : List Nat) (b : Nat) :
    bytesToNatBE (bs ++ [b]) = bytesToNatBE bs * 256 + b := by
  simp [bytesToNatBE, List.foldl_append]

theorem bytesToNatBE_natToBytesBE (w v : Nat) (h : v < 256 ^ w) :
    bytesToNatBE (natToBytesBE w v) = v := by
  induction w generalizing v with
  | zero =>
    interval_cases v
    rfl
  | succ w ih =>
    have hdiv : v / 256 < 256 ^ w := by
      rw [Nat.div_lt_iff_lt_mul (by norm_num)]
      calc v < 256 ^ (w + 1) := h
        _ = 256 ^ w * 256 := by ring
    rw [natToBytesBE, bytesToNatBE_append_singleton, ih _ hdiv]
    omega

theorem bitsToI32_i32ToBits (v : Int) (h1 : -(2 ^ 31) ≤ v) (h2 : v < 2 ^ 31) :
    bitsToI32 (i32ToBits v) = v := by
  unfold bitsToI32 i32ToBits
  have hmod : v % ((2 : Int) ^ 32) = if 0 ≤ v then v else v + 2 ^ 32 := by
    split <;> omega
  rw [hmod]
  by_cases hv : 0 ≤ v
  · simp only [if_pos hv]
    split <;> omega
  · simp only [if_neg hv]
    split <;> omega

theorem i32ToBits_lt (v : Int) : i32ToBits v < 2 ^ 32 := by
  unfold i32ToBits
  have h0 : (0 : Int) < 2 ^ 32 := by norm_num
  have := Int.emod_lt_of_pos v h0
  omega

/-! ## Decimal text for integers -/

/-- Decimal ASCII digits of a `Nat` (most significant first). -/
def natDecBytes (n : Nat) : List Nat := (Nat.toDigits 10 n).map Char.toNat

/-- Decimal ASCII rendering of an `Int`, as Rust's `i32::to_string`:
a leading `-` (byte 45) for negative values, plain digits otherwise. -/
def intDecBytes (v : Int) : List Nat :=
  if v < 0 then 45 :: natDecBytes (-v).toNat else natDecBytes v.toNat

/-- One ASCII decimal digit to its value, `none` otherwise. -/
def digitVal (b : Nat) : Option Nat := if 48 ≤ b ∧ b ≤ 57 then some (b - 48) else none

/-- Parse an all-digit byte string (at least one digit) to a `Nat`. -/
def parseNatDigits (s : List Nat) : Option Nat :=
  match s with
  | [] => none
  | _ :: _ =>
    s.foldl (fun acc b => acc.bind fun a => (digitVal b).map fun d => a * 10 + d) (some 0)

/-- Rust `str::parse::<i32>` over a byte string: optional sign, one or more
decimal digits, value within `[-2^31, 2^31)`. -/
def parseI32Bytes (s : List Nat) : Option Int :=
  match s with
  | 43 :: rest => (parseNatDigits rest).bind fun n =>
      if n ≤ 2 ^ 31 - 1 then some (n : Int) else none
  | 45 :: rest => (parseNatDigits rest).bind fun n =>
      if n ≤ 2 ^ 31 then some (-(n : Int)) else none
  | _ => (parseNatDigits s).bind fun n =>
      if n ≤ 2 ^ 31 - 1 then some (n : Int) else none

theorem parseI32Bytes_bounds (s : List Nat) (v : Int) (h : parseI32Bytes s = some v) :
    -(2 ^ 31) ≤ v ∧ v < 2 ^ 31 := by
  unfold parseI32Bytes at h
  split at h <;>
    · rcases hn : parseNatDigits _ with _ | n <;> rw [hn] at h <;> simp at h <;> omega

/-! ## NUL trimming (the `trim` extension on `[u8]` in `bytescoder.rs`) -/

/-- Drop leading NUL bytes. -/
def stripLeadingNul (s : List Nat) : List Nat := s.dropWhile (fun b => b == 0)

/-- Drop trailing NUL bytes. -/
def stripTrailingNul (s : List Nat) : List Nat := (s.reverse.dropWhile (fun b => b == 0)).reverse

/-- The `trim` of `bytescoder.rs`: the window from the first to the last
non-NUL byte (empty if none), i.e. both leading and trailing NULs dropped. -/
def trimNul (s : List Nat) : List Nat := stripLeadingNul (stripTrailingNul s)

theorem dropWhile_replicate_append (k : Nat) (l : List Nat) :
    (List.replicate k 0 ++ l).dropWhile (fun b => b == 0) = l.dropWhile (fun b => b == 0) := by
  induction k with
  | zero => rfl
  | succ k ih => simpa [List.replicate_succ, List.dropWhile] using ih

theorem stripTrailingNul_append_replicate (s : List Nat) (k : Nat) :
    stripTrailingNul (s ++ List.replicate k 0) = stripTrailingNul s := by
  unfold stripTrailingNul
  rw [List.reverse_append, List.reverse_replicate, dropWhile_replicate_append]

theorem trimNul_append_replicate (s : List Nat) (k : Nat) :
    trimNul (s ++ List.replicate k 0) = trimNul s := by
  unfold trimNul
  rw [stripTrailingNul_append_replicate]

/-! ## The BytesCoder (`src/storage/bytescoder.rs`)

`DataType` is from `src/component/datatype.rs`; `Char`/`Varchar` lengths are
`u8` there, embedded as `Nat` (the parser enforces the `u8` range).
`attr_to_bytes` / `bytes_to_attr` are parameterized by the float parsing and
formatting functions (`str::parse::<f32>/<f64>` returning the IEEE bit
pattern as a `Nat`, and `f32/f64::to_string` of a bit pattern): the coder
moves the patterns through big-endian bytes untouched, so every theorem
below holds for any such functions. -/

inductive DataType where
  | char (len : Nat)
  | double
  | float
  | int
  | varchar (len : Nat)
deriving DecidableEq

inductive BytesCoderError where
  | ioErr
  | parseIntErr
  | parseFloatErr
  | stringLength
  | stringDecode
  | attrNotExists
deriving DecidableEq

namespace BytesCoder

/-- `BytesCoder::attr_to_bytes`.  `p32`/`p64` are `str::parse::<f32>/<f64>`
yielding the float's bit pattern.  Text values are byte strings. -/
def attr_to_bytes (p32 p64 : List Nat → Option Nat) (datatype : DataType)
    (str_val : List Nat) : Except BytesCoderError (List Nat) :=
  match datatype with
  | .char length =>
    if length < str_val.length then .error .stringLength
    else .ok (str_val ++ List.replicate (length - str_val.length) 0)
  | .double =>
    match p64 str_val with
    | some v => .ok (natToBytesBE 8 v)
    | none => .error .parseFloatErr
  | .float =>
    match p32 str_val with
    | some v => .ok (natToBytesBE 4 v)
    | none => .error .parseFloatErr
  | .int =>
    match parseI32Bytes str_val with
    | some v => .ok (natToBytesBE 4 (i32ToBits v))
    | none => .error .parseIntErr
  | .varchar length =>
    if length < str_val.length then .error .stringLength
    else .ok (str_val ++ List.replicate (length - str_val.length) 0)

/-- `BytesCoder::bytes_to_attr`.  `f32out`/`f64out` are `to_string` on a bit
pattern.  For `Char`/`Varchar` the Rust code trims NULs and re-validates
UTF-8; trimming removes only whole `0x00` bytes, which never occur inside a
multi-byte UTF-8 sequence, so on bytes produced from a Rust `&str` the
validation always succeeds and is not re-modelled.  The numeric reads fail
with an I/O error when fewer bytes than the value's width are available and
otherwise use the leading 4 (resp. 8) bytes, as `byteorder` does on slices. -/
def bytes_to_attr (f32out f64out : Nat → List Nat) (datatype : DataType)
    (bytes : List Nat) : Except BytesCoderError (List Nat) :=
  match datatype with
  | .char _ => .ok (trimNul bytes)
  | .double =>
    if 8 ≤ bytes.length then .ok (f64out (bytesToNatBE (bytes.take 8))) else .error .ioErr
  | .float =>
    if 4 ≤ bytes.length then .ok (f32out (bytesToNatBE (bytes.take 4))) else .error .ioErr
  | .int =>
    if 4 ≤ bytes.length then .ok (intDecBytes (bitsToI32 (bytesToNatBE (bytes.take 4))))
    else .error .ioErr
  | .varchar _ => .ok (trimNul bytes)

end BytesCoder

/-! ## Claim C2 — encode/decode round trip -/

/-- The canonical value the decoder actually returns for an encodable input:
NUL trimming on both sides for text types, default decimal re-formatting of
the parsed value for numerics. -/
def canonAttr (p32 p64 : List Nat → Option Nat) (f32out f64out : Nat → List Nat)
    (t : DataType) (s : List Nat) : List Nat :=
  match t with
  | .char _ => trimNul s
  | .varchar _ => trimNul s
  | .int =>
    match parseI32Bytes s with
    | some v => intDecBytes v
    | none => []
  | .float =>
    match p32 s with
    | some v => f32out v
    | none => []
  | .double =>
    match p64 s with
    | some v => f64out v
    | none => []

/-- The canonical value claim C2 asserts: only *trailing* NUL padding is
trimmed for `Char`/`Varchar`. -/
def canonAttrStated (p32 p64 : List Nat → Option Nat) (f32out f64out : Nat → List Nat)
    (t : DataType) (s : List Nat) : List Nat :=
  match t with
  | .char _ => stripTrailingNul s
  | .varchar _ => stripTrailingNul s
  | _ => canonAttr p32 p64 f32out f64out t s

/-- Claim C2 exactly as stated: decoding an encoded value returns the input
up to trimming of (trailing) NUL padding for text types and decimal
re-formatting for numerics.  (`p32`/`p64` are required to produce genuine
32/64-bit patterns, as `str::parse` does.) -/
def C2_statedClaim : Prop :=
  ∀ (p32 p64 : List Nat → Option Nat) (f32out f64out : Nat → List Nat)
    (t : DataType) (s bs : List Nat),
    (∀ v, p32 s = some v → v < 2 ^ 32) →
    (∀ v, p64 s = some v → v < 2 ^ 64) →
    BytesCoder.attr_to_bytes p32 p64 t s = .ok bs →
    BytesCoder.bytes_to_attr f32out f64out t bs = .ok (canonAttrStated p32 p64 f32out f64out t s)

/-- Claim C2, counterexample: encoding the two-byte `Char(2)` value
`[0x00, 'a']` succeeds and decodes to `['a']` — the *leading* NUL of the
original value is trimmed as well, so the result is not the input with only
trailing NUL padding removed. -/
theorem C2_counterexample : ¬ C2_statedClaim := by
  intro h
  have h2 := h (fun _ => none) (fun _ => none) (fun _ => []) (fun _ => [])
    (.char 2) [0, 97] [0, 97]
    (fun v hv => nomatch hv) (fun v hv => nomatch hv) rfl
  have h3 : BytesCoder.bytes_to_attr (fun _ => ([] : List Nat)) (fun _ => ([] : List Nat))
      (.char 2) [0, 97] = .ok [97] := rfl
  have h4 : canonAttrStated (fun _ => (none : Option Nat)) (fun _ => (none : Option Nat))
      (fun _ => ([] : List Nat)) (fun _ => ([] : List Nat)) (.char 2) [0, 97] = [0, 97] := rfl
  rw [h3, h4] at h2
  simp at h2

/-- Claim C2 (amended: for `Char`/`Varchar` both leading and trailing NUL
bytes are trimmed, the rest as stated): for every data type `t` and byte
string `s` on which `attr_to_bytes` succeeds, `bytes_to_attr` on the encoded
bytes succeeds and returns `s` trimmed of leading and trailing NULs for
`Char`/`Varchar`, and the default decimal re-formatting of the parsed value
for `Int`/`Float`/`Double`. -/
theorem C2_roundtrip (p32 p64 : List Nat → Option Nat) (f32out f64out : Nat → List Nat)
    (t : DataType) (s bs : List Nat)
    (hp32 : ∀ v, p32 s = some v → v < 2 ^ 32)
    (hp64 : ∀ v, p64 s = some v → v < 2 ^ 64)
    (henc : BytesCoder.attr_to_bytes p32 p64 t s = .ok bs) :
    BytesCoder.bytes_to_attr f32out f64out t bs =
      .ok (canonAttr p32 p64 f32out f64out t s) := by
  cases t with
  | char n =>
    simp only [BytesCoder.attr_to_bytes] at henc
    split at henc
    · exact absurd henc (by simp)
    · simp only [Except.ok.injEq] at henc
      subst henc
      simp [BytesCoder.bytes_to_attr, canonAttr, trimNul_append_replicate]
  | varchar n =>
    simp only [BytesCoder.attr_to_bytes] at henc
    split at henc
    · exact absurd henc (by simp)
    · simp only [Except.ok.injEq] at henc
      subst henc
      simp [BytesCoder.bytes_to_attr, canonAttr, trimNul_append_replicate]
  | int =>
    simp only [BytesCoder.attr_to_bytes] at henc
    rcases hv : parseI32Bytes s with _ | v <;> rw [hv] at henc <;>
      simp only [Except.ok.injEq, reduceCtorEq] at henc
    subst henc
    have hlen : (natToBytesBE 4 (i32ToBits v)).length = 4 := length_natToBytesBE _ _
    have hbits : i32ToBits v < 256 ^ 4 := by
      have := i32ToBits_lt v
      norm_num at this ⊢
      omega
    obtain ⟨h1, h2⟩ := parseI32Bytes_bounds s v hv
    simp only [BytesCoder.bytes_to_attr, hlen, le_refl, if_true, canonAttr, hv,
      List.take_of_length_le (le_of_eq hlen)]
    rw [bytesToNatBE_natToBytesBE _ _ hbits, bitsToI32_i32ToBits v h1 h2]
  | float =>
    simp only [BytesCoder.attr_to_bytes] at henc
    rcases hv : p32 s with _ | v <;> rw [hv] at henc <;>
      simp only [Except.ok.injEq, reduceCtorEq] at henc
    subst henc
    have hlen : (natToBytesBE 4 v).length = 4 := length_natToBytesBE _ _
    have hb : v < 256 ^ 4 := by have := hp32 v hv; norm_num at this ⊢; omega
    simp only [BytesCoder.bytes_to_attr, hlen, le_refl, if_true, canonAttr, hv,
      List.take_of_length_le (le_of_eq hlen)]
    rw [bytesToNatBE_natToBytesBE _ _ hb]
  | double =>
    simp only [BytesCoder.attr_to_bytes] at henc
    rcases hv : p64 s with _ | v <;> rw [hv] at henc <;>
      simp only [Except.ok.injEq, reduceCtorEq] at henc
    subst henc
    have hlen : (natToBytesBE 8 v).length = 8 := length_natToBytesBE _ _
    have hb : v < 256 ^ 8 := by have := hp64 v hv; norm_num at this ⊢; omega
    simp only [BytesCoder.bytes_to_attr, hlen, le_refl, if_true, canonAttr, hv,
      List.take_of_length_le (le_of_eq hlen)]
    rw [bytesToNatBE_natToBytesBE _ _ hb]

/-- Claim C2, witness: the amended round trip evaluated at `Int` and the
text `"-47"` (bytes `[45, 52, 55]`). -/
theorem C2_roundtrip_witness :
    BytesCoder.attr_to_bytes (fun _ => none) (fun _ => none) .int [45, 52, 55] =
      .ok (natToBytesBE 4 (i32ToBits (-47))) ∧
    BytesCoder.bytes_to_attr (fun _ => []) (fun _ => []) .int
        (natToBytesBE 4 (i32ToBits (-47))) =
      .ok (canonAttr (fun _ => none) (fun _ => none) (fun _ => []) (fun _ => [])
        .int [45, 52, 55]) :=
  ⟨rfl,
   C2_roundtrip (fun _ => none) (fun _ => none) (fun _ => []) (fun _ => [])
     .int [45, 52, 55] _ (fun v hv => nomatch hv) (fun v hv => nomatch hv) rfl⟩

/-! ## Row files (`src/storage/file.rs`)

A table's `.bin` file is a byte array; records are `row_length`-byte chunks
whose byte 0 is the `__valid__` flag.  The storage-hierarchy check and the
`tables.json` lookup that precede every operation only select the file and
its `row_length`; the embedding takes the file contents and `row_length`
directly.  Decoding a record into a `Row` (`bytes_to_attr` over the meta's
offset ranges) is a fixed function of the record's bytes; it is taken as the
parameter `decodeRec`, so the theorems hold for every table meta. -/

inductive FileError where
  | tableNotExists
  | rangeContainsDeletedRecord
  | rangeExceedLatestRecord
  | rangeAndNumRowsMismatch
  | causedByBytes (e : BytesCoderError)
deriving DecidableEq

/-- Split a byte string into `L`-byte records, as `chunks(row_length)`. -/
def chunksOf (L : Nat) (bs : List Nat) : List (List Nat) :=
  if h : bs = [] ∨ L = 0 then []
  else bs.take L :: chunksOf L (bs.drop L)
termination_by bs.length
decreasing_by
  push_neg at h
  have : bs.length ≠ 0 := fun hh => h.1 (List.eq_nil_of_length_eq_zero hh)
  simp only [List.length_drop]
  omega

namespace File

/-- The per-record loop of `fetch_rows`: reject a record whose `__valid__`
byte is 0, otherwise decode it; first failure wins.  Records are never empty
(`row_length ≥ 1`), so the `headD` default is immaterial. -/
def decodeRecords (decodeRec : List Nat → Except BytesCoderError ρ) :
    List (List Nat) → Except FileError (List ρ)
  | [] => .ok []
  | r :: rs =>
    if r.headD 1 = 0 then .error .rangeContainsDeletedRecord
    else
      match (decodeRec r).mapError FileError.causedByBytes with
      | .error e => .error e
      | .ok v =>
        match decodeRecords decodeRec rs with
        | .error e => .error e
        | .ok vs => .ok (v :: vs)

/-- `File::fetch_rows` over the in-memory file: seek to `lo * L`, read
`(hi - lo) * L` bytes, fail `RangeExceedLatestRecord` on a short read, then
decode record by record. -/
def fetch_rows (decodeRec : List Nat → Except BytesCoderError ρ) (file : List Nat)
    (L lo hi : Nat) : Except FileError (List ρ) :=
  if ((file.drop (lo * L)).take ((hi - lo) * L)).length ≠ (hi - lo) * L then
    .error .rangeExceedLatestRecord
  else decodeRecords decodeRec (chunksOf L ((file.drop (lo * L)).take ((hi - lo) * L)))

/-- The validation pass of `delete_rows`: for each `row_id` in `[lo, hi)`
read the `__valid__` byte; a read past the end fails
`RangeExceedLatestRecord`, a 0 byte fails `RangeContainsDeletedRecord`. -/
def checkLive (file : List Nat) (L : Nat) : Nat → Nat → Except FileError Unit
  | r, hi =>
    if h : r < hi then
      match file.get? (r * L) with
      | none => .error .rangeExceedLatestRecord
      | some b =>
        if b = 0 then .error .rangeContainsDeletedRecord
        else checkLive file L (r + 1) hi
    else .ok ()
termination_by r hi => hi - r

/-- The write pass of `delete_rows`: overwrite byte `r * L` with 0 for the
`n` row ids starting at `a`. -/
def markDeleted (file : List Nat) (L a n : Nat) : List Nat :=
  match n with
  | 0 => file
  | n + 1 => markDeleted (file.set (a * L) 0) L (a + 1) n

/-- `File::delete_rows`: validate the whole range, then tombstone it. -/
def delete_rows (file : List Nat) (L lo hi : Nat) : Except FileError (List Nat) :=
  match checkLive file L lo hi with
  | .error e => .error e
  | .ok _ => .ok (markDeleted file L lo (hi - lo))

theorem markDeleted_length (file : List Nat) (L a n : Nat) :
    (markDeleted file L a n).length = file.length := by
  induction n generalizing file a with
  | zero => rfl
  | succ n ih => simp [markDeleted, ih]

theorem markDeleted_get?_of_notMem (file : List Nat) (L a n p : Nat)
    (h : ∀ r, a ≤ r → r < a + n → p ≠ r * L) :
    (markDeleted file L a n)[p]? = file[p]? := by
  induction n generalizing file a with
  | zero => rfl
  | succ n ih =>
    rw [markDeleted, ih _ _ (fun r h1 h2 => h r (by omega) (by omega))]
    exact List.getElem?_set_ne (fun he => h a (le_refl a) (by omega) he.symm)

theorem markDeleted_get?_first (file : List Nat) (L a n : Nat) (hL : 0 < L)
    (hn : 0 < n) (hlen : a * L < file.length) :
    (markDeleted file L a n)[a * L]? = some 0 := by
  cases n with
  | zero => omega
  | succ n =>
    rw [markDeleted, markDeleted_get?_of_notMem]
    · simp [List.getElem?_set_eq_of_lt, hlen]
    · intro r h1 h2 he
      have har : a < r := by omega
      have : a * L < r * L := (Nat.mul_lt_mul_right hL).mpr har
      omega

end File

/-! ## Claim C5 — delete then fetch -/

/-- Claim C5 (confirmed): for a nonempty range `[a, b)` of fully present,
live records, once `delete_rows` succeeds, `fetch_rows` over `[a, b)` fails
with `RangeContainsDeletedRecord`, and `fetch_rows` over any `[x, y)`
disjoint from `[a, b)` returns exactly what it returned before the
deletion. -/
theorem C5_delete_then_fetch (ρ : Type) (decodeRec : List Nat → Except BytesCoderError ρ)
    (file file' : List Nat) (L a b : Nat)
    (hL : 0 < L) (hab : a < b) (hb : b * L ≤ file.length)
    (hdel : File.delete_rows file L a b = .ok file') :
    File.fetch_rows decodeRec file' L a b = .error .rangeContainsDeletedRecord ∧
    ∀ x y, (y ≤ a ∨ b ≤ x) →
      File.fetch_rows decodeRec file' L x y = File.fetch_rows decodeRec file L x y := by
  have hfile' : file' = File.markDeleted file L a (b - a) := by
    unfold File.delete_rows at hdel
    rcases hchk : File.checkLive file L a b with _ | e <;> rw [hchk] at hdel <;>
      simp only [Except.ok.injEq, reduceCtorEq] at hdel
    exact hdel.symm
  have hlen' : file'.length = file.length := by
    rw [hfile']; exact File.markDeleted_length _ _ _ _
  have haL : a * L < b * L := by
    calc a * L < (a + 1) * L := by nlinarith
      _ ≤ b * L := Nat.mul_le_mul_right L (by omega)
  have hfirst : file'[a * L]? = some 0 := by
    rw [hfile']
    exact File.markDeleted_get?_first _ _ _ _ hL (by omega) (by omega)
  have huntouched : ∀ p, (∀ r, a ≤ r → r < b → p ≠ r * L) → file'[p]? = file[p]? := by
    intro p hp
    rw [hfile']
    exact File.markDeleted_get?_of_notMem _ _ _ _ _ (fun r h1 h2 => hp r h1 (by omega))
  constructor
  · -- fetching the deleted range fails
    have habL : a * L + (b - a) * L = b * L := by
      have h := Nat.add_mul a (b - a) L
      have h2 : (a + (b - a)) * L = b * L := by congr 1; omega
      omega
    have hchunklen : ((file'.drop (a * L)).take ((b - a) * L)).length = (b - a) * L := by
      simp only [List.length_take, List.length_drop, hlen']
      omega
    have hpos : 0 < (b - a) * L := by
      have h1 : 1 * L ≤ (b - a) * L := Nat.mul_le_mul_right L (by omega)
      omega
    unfold File.fetch_rows
    rw [if_neg (by simp [hchunklen])]
    -- the first record's `__valid__` byte is 0
    have hne : (file'.drop (a * L)).take ((b - a) * L) ≠ [] := by
      intro hnil
      rw [hnil] at hchunklen
      simp at hchunklen
      omega
    rw [chunksOf, dif_neg (by push_neg; exact ⟨hne, by omega⟩)]
    have hhead : (((file'.drop (a * L)).take ((b - a) * L)).take L).head? = some 0 := by
      rw [List.take_take]
      have h1 : 1 * L ≤ (b - a) * L := Nat.mul_le_mul_right L (by omega)
      rw [min_eq_left (by omega), List.head?_take, if_neg (by omega), List.head?_drop]
      exact hfirst
    unfold File.decodeRecords
    rw [List.headD_eq_head?, hhead]
    simp
  · -- a disjoint range reads the same bytes, hence the same rows
    intro x y hdisj
    have hchunk : (file'.drop (x * L)).take ((y - x) * L) =
        (file.drop (x * L)).take ((y - x) * L) := by
      apply List.ext_getElem?
      intro n
      simp only [List.getElem?_take, List.getElem?_drop]
      split
      · rename_i hn
        apply huntouched
        intro r h1 h2 he
        have hrlo : x * L ≤ r * L := by omega
        have hrhi : r * L < x * L + (y - x) * L := by
          rw [← he]
          exact Nat.add_lt_add_left hn _
        have hxlty : x < y := by
          by_contra hc
          push_neg at hc
          have h0 : y - x = 0 := by omega
          rw [h0, Nat.zero_mul] at hn
          omega
        have hxy : x * L + (y - x) * L ≤ y * L := by
          have h3 : (x + (y - x)) * L ≤ y * L := Nat.mul_le_mul_right L (by omega)
          have h4 := Nat.add_mul x (y - x) L
          omega
        have hxr : x ≤ r := by
          by_contra hc
          push_neg at hc
          have : r * L < x * L := (Nat.mul_lt_mul_right hL).mpr hc
          omega
        have hry : r < y := by
          by_contra hc
          push_neg at hc
          have : y * L ≤ r * L := Nat.mul_le_mul_right L hc
          omega
        rcases hdisj with h | h <;> omega
      · rfl
    unfold File.fetch_rows
    rw [hchunk]

/-- Claim C5, witness: a three-record file with `row_length = 2`; deleting
record 1 makes fetching `[1, 2)` fail and leaves fetching `[2, 3)`
unchanged. -/
theorem C5_delete_then_fetch_witness :
    File.delete_rows [1, 10, 1, 20, 1, 30] 2 1 2 = .ok [1, 10, 0, 20, 1, 30] ∧
    File.fetch_rows (fun r => .ok r) [1, 10, 0, 20, 1, 30] 2 1 2 =
      .error .rangeContainsDeletedRecord ∧
    File.fetch_rows (fun r => .ok r) [1, 10, 0, 20, 1, 30] 2 2 3 =
      File.fetch_rows (fun r => .ok r) [1, 10, 1, 20, 1, 30] 2 2 3 := by
  have hdel : File.delete_rows [1, 10, 1, 20, 1, 30] 2 1 2 = .ok [1, 10, 0, 20, 1, 30] := by
    simp [File.delete_rows, File.checkLive, File.markDeleted]
  have hmain := C5_delete_then_fetch (List Nat) (fun r => .ok r) [1, 10, 1, 20, 1, 30]
    [1, 10, 0, 20, 1, 30] 2 1 2 (by norm_num) (by norm_num) (by simp) hdel
  exact ⟨hdel, hmain.1, hmain.2 2 3 (Or.inr (by norm_num))⟩

/-! ## Association lists

`HashMap<String, _>` values are embedded as association lists in insertion
order with unique keys; `HashSet<usize>` values as ascending duplicate-free
`List Nat`.  Hash iteration order is unspecified in Rust; every fact proved
below is either order-independent or concerns data the code sorts before
use, and the embedding fixes the canonical orders above. -/

/-- `HashMap` lookup. -/
def alGet (m : List (String × α)) (k : String) : Option α :=
  (m.find? (fun p => p.1 == k)).map (·.2)

/-- `HashMap` insert: replace the value in place if the key exists,
otherwise append. -/
def alInsert (m : List (String × α)) (k : String) (v : α) : List (String × α) :=
  match m with
  | [] => [(k, v)]
  | (k', v') :: rest => if k' == k then (k, v) :: rest else (k', v') :: alInsert rest k v

/-- `HashMap` remove. -/
def alRemove (m : List (String × α)) (k : String) : List (String × α) :=
  match m with
  | [] => []
  | (k', v') :: rest => if k' == k then rest else (k', v') :: alRemove rest k

/-- Ascending duplicate-free insert, the canonical form of `HashSet::insert`. -/
def setInsert (s : List Nat) (i : Nat) : List Nat :=
  match s with
  | [] => [i]
  | x :: xs => if i < x then i :: x :: xs else if i = x then x :: xs else x :: setInsert xs i

/-- Canonical `HashSet` union. -/
def setUnion (a b : List Nat) : List Nat := b.foldl setInsert a

/-- Canonical `HashSet` intersection. -/
def setInter (a b : List Nat) : List Nat := a.filter (fun i => i ∈ b)

/-- Canonical `HashSet` difference (used only to state complements). -/
def setDiff (a b : List Nat) : List Nat := a.filter (fun i => i ∉ b)

theorem mem_setInsert (s : List Nat) (i j : Nat) :
    j ∈ setInsert s i ↔ j = i ∨ j ∈ s := by
  induction s with
  | nil => simp [setInsert]
  | cons x xs ih =>
    unfold setInsert
    split
    · simp only [List.mem_cons]
    · split
      · subst_eqs
        simp only [List.mem_cons]
        tauto
      · simp only [List.mem_cons, ih]
        tauto

theorem mem_foldl_setInsert (l : List Nat) (s : List Nat) (j : Nat) :
    j ∈ l.foldl setInsert s ↔ j ∈ s ∨ j ∈ l := by
  induction l generalizing s with
  | nil => simp
  | cons x xs ih =>
    simp only [List.foldl_cons, ih, mem_setInsert, List.mem_cons]
    tauto

/-! ## Worker-level text values

Rust parses row values with `str::parse::<i32>/<f32>/<f64>` and compares
with `PartialOrd`.  `i32` parsing follows the byte-level definition above.
Float literals are embedded as exact decimals `(numerator, scale)` with
value `num / 10^scale` and compared exactly; IEEE-754 round-to-nearest is
monotone, so this agrees with `f32`/`f64` comparison whenever the compared
literals round to distinct floats (true of every literal in this file).
Strings compare byte-lexicographically in Rust; the embedding compares char
code points, which coincides on ASCII data. -/

/-- Rust `str::parse::<i32>` on a `String`. -/
def parseI32Str (s : String) : Option Int := parseI32Bytes (s.toList.map Char.toNat)

/-- Parse an optional sign and `digits [. digits]` decimal literal to
`(signed numerator, scale)`; `none` for anything else. -/
def parseDecimal (s : String) : Option (Int × Nat) :=
  let core : List Char → Option (Nat × Nat) := fun cs =>
    let intPart := cs.takeWhile Char.isDigit
    let rest := cs.dropWhile Char.isDigit
    match rest with
    | [] =>
      if intPart.isEmpty then none
      else some (intPart.foldl (fun a c => a * 10 + (c.toNat - 48)) 0, 0)
    | '.' :: fr =>
      let frDigits := fr.takeWhile Char.isDigit
      if (fr.dropWhile Char.isDigit).isEmpty then
        if intPart.isEmpty ∧ frDigits.isEmpty then none
        else some ((intPart ++ frDigits).foldl (fun a c => a * 10 + (c.toNat - 48)) 0,
          frDigits.length)
      else none
    | _ => none
  match s.toList with
  | '+' :: cs => (core cs).map (fun p => ((p.1 : Int), p.2))
  | '-' :: cs => (core cs).map (fun p => (-(p.1 : Int), p.2))
  | cs => (core cs).map (fun p => ((p.1 : Int), p.2))

/-- Exact comparison of two parsed decimals. -/
def decCompare (a b : Int × Nat) : Ordering :=
  compare (a.1 * (10 : Int) ^ b.2) (b.1 * (10 : Int) ^ a.2)

/-- Lexicographic comparison of char lists (byte order on ASCII). -/
def charsCompare : List Char → List Char → Ordering
  | [], [] => .eq
  | [], _ :: _ => .lt
  | _ :: _, [] => .gt
  | a :: as_, b :: bs =>
    if a.toNat < b.toNat then .lt
    else if b.toNat < a.toNat then .gt
    else charsCompare as_ bs

/-- Rust `String` ordering. -/
def strCompare (a b : String) : Ordering := charsCompare a.toList b.toList

/-- The `cmp` helper of `table.rs`: apply a comparison-operator token to an
ordering; unknown operators yield `false` ("never happen"). -/
def cmpOp (operator : String) (o : Ordering) : Bool :=
  if operator = "=" then o = .eq
  else if operator = ">" then o = .gt
  else if operator = ">=" then o ≠ .lt
  else if operator = "<" then o = .lt
  else if operator = "<=" then o ≠ .gt
  else if operator = "!=" then o ≠ .eq
  else if operator = "<>" then o ≠ .eq
  else false

/-! ## Catalog: `Field`, `Row`, `Table` (`src/component`) -/

/-- `Field` (`field.rs`), without the random `uuid` and the unused
`check` slot. -/
structure Field where
  name : String
  datatype : DataType
  not_null : Bool
  default : Option String
  encrypt : Bool
deriving DecidableEq

/-- `Field::new`. -/
def Field.new (name : String) (datatype : DataType) : Field :=
  ⟨name, datatype, false, none, false⟩

/-- `Row` (`table.rs`). -/
structure Row where
  data : List (String × String)
  is_dirty : Bool
  is_delete : Bool
deriving DecidableEq

/-- `Row::new`. -/
def Row.new : Row := ⟨[], true, false⟩

/-- `Table` (`table.rs`). -/
structure Table where
  name : String
  fields : List (String × Field)
  primary_key : List String
  foreign_key : List String
  reference_table : Option String
  reference_attr : Option String
  rows : List Row
  is_data_loaded : Bool
  is_dirty : Bool
  dirty_cursor : Nat
  is_delete : Bool
  is_predicate_init : Bool
  row_set : List Nat
  public_key : Int
deriving DecidableEq

/-- `Table::new`. -/
def Table.new (name : String) : Table :=
  ⟨name, [], [], [], none, none, [], false, true, 0, false, false, [], 0⟩

inductive TableError where
  | insertFieldNotExisted (attr : String)
  | insertFieldNotNullMismatched (attr : String)
  | insertFieldDefaultMismatched (attr : String)
  | selectFieldNotExisted (attr : String)
  | keyNotExist
deriving DecidableEq

/-- `Table::insert_new_field`. -/
def Table.insert_new_field (t : Table) (field : Field) : Table :=
  { t with fields := alInsert t.fields field.name field }

/-- `Table::get_all_rows_set`. -/
def Table.get_all_rows_set (t : Table) : List Nat := List.range t.rows.length

/-- `Table::set_row_set`. -/
def Table.set_row_set (t : Table) (set : List Nat) : Table :=
  { t with row_set := set, is_predicate_init := true }

/-! ### `Table::insert_row`

The three validation loops of `insert_row` build and check the new row
before it is pushed; they read only the field map and the public key, never
the existing rows.  `buildRow` is that row-construction part; `insert_row`
is `buildRow` followed by the push. -/

/-- First loop of `insert_row`: move the given `(field, value)` pairs into
the row, rejecting `"null"` for a `NOT NULL` field and unknown fields. -/
def insertPairs (fields : List (String × Field)) (r : Row) :
    List (String × String) → Except TableError Row
  | [] => .ok r
  | (key, value) :: rest =>
    match alGet fields key with
    | some field =>
      if field.not_null ∧ value == "null" then
        .error (.insertFieldNotNullMismatched field.name)
      else insertPairs fields { r with data := alInsert r.data key value } rest
    | none => .error (.insertFieldNotExisted key)

/-- Second loop of `insert_row`: fill each absent field from its default or
fail. -/
def fillDefaults (r : Row) : List (String × Field) → Except TableError Row
  | [] => .ok r
  | (key, field) :: rest =>
    match alGet r.data key with
    | some _ => fillDefaults r rest
    | none =>
      match field.default with
      | some value => fillDefaults { r with data := alInsert r.data key value } rest
      | none => .error (.insertFieldDefaultMismatched key)

/-- Third loop of `insert_row`: an encrypted field with the default public
key 0 fails; the encryption hook itself is a `TODO` in the source and does
nothing. -/
def checkEncrypt (public_key : Int) : List (String × Field) → Except TableError Unit
  | [] => .ok ()
  | (_, field) :: rest =>
    if field.encrypt then
      if public_key = 0 then .error .keyNotExist else checkEncrypt public_key rest
    else checkEncrypt public_key rest

/-- The row built and validated by `insert_row` before the push. -/
def buildRow (fields : List (String × Field)) (public_key : Int)
    (row : List (String × String)) : Except TableError Row :=
  match insertPairs fields Row.new row with
  | .error e => .error e
  | .ok r =>
    match fillDefaults r fields with
    | .error e => .error e
    | .ok r =>
      match checkEncrypt public_key fields with
      | .error e => .error e
      | .ok _ => .ok r

/-- `Table::insert_row`. -/
def Table.insert_row (t : Table) (row : List (String × String)) : Except TableError Table :=
  match buildRow t.fields t.public_key row with
  | .error e => .error e
  | .ok r => .ok { t with rows := t.rows ++ [r] }

/-! ### `Table::operator_filter_rows`

The body unwraps the field lookup and every `str::parse`; a failing unwrap
is a Rust panic, embedded as `none`. -/

/-- One row against the predicate, per data type, as the `match data_type`
of `operator_filter_rows`. -/
def rowMatches (dt : DataType) (row : Row) (field_name operator value : String) :
    Option Bool :=
  match dt with
  | .int => do
    let d ← alGet row.data field_name
    let dv ← parseI32Str d
    let vv ← parseI32Str value
    pure (cmpOp operator (compare dv vv))
  | .float => do
    let d ← alGet row.data field_name
    let dv ← parseDecimal d
    let vv ← parseDecimal value
    pure (cmpOp operator (decCompare dv vv))
  | .double => do
    let d ← alGet row.data field_name
    let dv ← parseDecimal d
    let vv ← parseDecimal value
    pure (cmpOp operator (decCompare dv vv))
  | .char _ => do
    let d ← alGet row.data field_name
    pure (cmpOp operator (strCompare d value))
  | .varchar _ => do
    let d ← alGet row.data field_name
    pure (cmpOp operator (strCompare d value))

/-- The `for i in self.row_set` loop of `operator_filter_rows`: collect the
indices whose row passes the comparison. -/
def filterGo (t : Table) (dt : DataType) (f op v : String) :
    List Nat → Option (List Nat)
  | [] => some []
  | i :: rest => do
    let row ← t.rows.get? i
    let keep ← rowMatches dt row f op v
    let tail ← filterGo t dt f op v rest
    pure (if keep then i :: tail else tail)

/-- `Table::operator_filter_rows`.  When `is_predicate_init` is false the
loop first inserts every row index into the existing `row_set`; the flag is
intentionally never set here (see the `TODO` in the source). -/
def Table.operator_filter_rows (t : Table) (field_name operator value : String) :
    Option (Table × List Nat) :=
  match alGet t.fields field_name with
  | none => none
  | some field =>
    let rs1 :=
      if ¬ t.is_predicate_init then (List.range t.rows.length).foldl setInsert t.row_set
      else t.row_set
    match filterGo t field.datatype field_name operator value rs1 with
    | none => none
    | some set => some ({ t with row_set := set }, set)

/-! ## Claim C3 — `operator_filter_rows` with an uninitialized latch -/

theorem filterGo_spec (t : Table) (dt : DataType) (f op v : String) (l : List Nat)
    (hl : ∀ i ∈ l, i < t.rows.length)
    (hmatch : ∀ i r, t.rows.get? i = some r → (rowMatches dt r f op v).isSome) :
    ∃ set, filterGo t dt f op v l = some set ∧
      ∀ j, j ∈ set ↔ j ∈ l ∧ ∃ r, t.rows.get? j = some r ∧ rowMatches dt r f op v = some true := by
  induction l with
  | nil => exact ⟨[], rfl, by simp⟩
  | cons i rest ih =>
    obtain ⟨r, hr⟩ : ∃ r, t.rows.get? i = some r := by
      cases h : t.rows.get? i with
      | none =>
        rw [List.get?_eq_none] at h
        exact absurd (hl i (by simp)) (by omega)
      | some r => exact ⟨r, rfl⟩
    obtain ⟨b, hb⟩ : ∃ b, rowMatches dt r f op v = some b := by
      cases h : rowMatches dt r f op v with
      | none => exact absurd (hmatch i r hr) (by simp [h])
      | some b => exact ⟨b, rfl⟩
    obtain ⟨tail, htail, hmem⟩ := ih (fun j hj => hl j (by simp [hj]))
    refine ⟨if b then i :: tail else tail, ?_, ?_⟩
    · simp only [filterGo, hr, Option.bind_eq_bind, Option.some_bind, hb, htail]
      rfl
    · intro j
      by_cases hji : j = i
      · subst hji
        cases b with
        | true =>
          rw [if_pos rfl]
          constructor
          · intro _
            exact ⟨List.mem_cons_self _ _, r, hr, hb⟩
          · intro _
            exact List.mem_cons_self _ _
        | false =>
          simp only [if_neg Bool.false_ne_true, hmem, List.mem_cons]
          constructor
          · rintro ⟨_, hex⟩
            exact ⟨Or.inr (by tauto), hex⟩
          · rintro ⟨_, r', hr', htrue⟩
            rw [hr] at hr'
            injection hr' with hr''
            subst hr''
            rw [hb] at htrue
            exact absurd htrue (by simp)
      · cases b <;> simp [hmem, hji]
  termination_by l.length

/-- Claim C3 (confirmed): on a table whose `is_predicate_init` latch is
false (and whose `row_set` holds only valid row indices, as every reachable
state does), `operator_filter_rows` returns exactly the indices of *all*
rows satisfying the comparison under the field's data type, stores that set
in `row_set`, and leaves the latch false, so a following call filters over
the full row set again. -/
theorem C3_operator_filter_rows (t : Table) (f op v : String) (fld : Field)
    (hinit : t.is_predicate_init = false)
    (hfld : alGet t.fields f = some fld)
    (hsub : ∀ i ∈ t.row_set, i < t.rows.length)
    (hmatch : ∀ i r, t.rows.get? i = some r → (rowMatches fld.datatype r f op v).isSome) :
    ∃ t' set, Table.operator_filter_rows t f op v = some (t', set) ∧
      (∀ j, j ∈ set ↔ ∃ r, t.rows.get? j = some r ∧
        rowMatches fld.datatype r f op v = some true) ∧
      t'.row_set = set ∧ t'.is_predicate_init = false ∧ t'.rows = t.rows := by
  have hrs1 : ∀ j, j ∈ (List.range t.rows.length).foldl setInsert t.row_set ↔
      j < t.rows.length := by
    intro j
    rw [mem_foldl_setInsert, List.mem_range]
    constructor
    · rintro (h | h)
      · exact hsub j h
      · exact h
    · exact Or.inr
  obtain ⟨set, hgo, hmem⟩ := filterGo_spec t fld.datatype f op v
    ((List.range t.rows.length).foldl setInsert t.row_set)
    (fun i hi => (hrs1 i).mp hi) hmatch
  refine ⟨{ t with row_set := set }, set, ?_, ?_, rfl, hinit, rfl⟩
  · unfold Table.operator_filter_rows
    rw [hfld]
    simp only [hinit, Bool.false_eq_true, not_false_eq_true, if_pos, hgo]
  · intro j
    rw [hmem j]
    constructor
    · rintro ⟨_, hex⟩
      exact hex
    · rintro ⟨r, hr, htrue⟩
      refine ⟨(hrs1 j).mpr ?_, r, hr, htrue⟩
      by_contra hc
      push_neg at hc
      rw [List.get?_eq_none.mpr (by omega)] at hr
      exact absurd hr (by simp)

/-- Claim C3, witness: a two-row `Int` table with latch off and a stale
`row_set`; filtering `a1 > 1` yields exactly row index 1. -/
theorem C3_operator_filter_rows_witness :
    ∃ t' set,
      Table.operator_filter_rows
        { Table.new "t1" with
            fields := [("a1", Field.new "a1" .int)],
            rows := [⟨[("a1", "1")], true, false⟩, ⟨[("a1", "2")], true, false⟩],
            row_set := [0] }
        "a1" ">" "1" = some (t', set) ∧
      (∀ j, j ∈ set ↔ ∃ r,
        [Row.mk [("a1", "1")] true false, Row.mk [("a1", "2")] true false].get? j = some r ∧
        rowMatches .int r "a1" ">" "1" = some true) ∧
      t'.row_set = set ∧ t'.is_predicate_init = false ∧
      t'.rows = [Row.mk [("a1", "1")] true false, Row.mk [("a1", "2")] true false] :=
  C3_operator_filter_rows _ "a1" ">" "1" (Field.new "a1" .int) rfl rfl
    (by intro i hi; simp at hi; subst hi; decide)
    (by
      intro i r h
      match i with
      | 0 =>
        simp only [List.get?_cons_zero, Option.some.injEq] at h
        subst h
        decide
      | 1 =>
        simp only [List.get?_cons_succ, List.get?_cons_zero, Option.some.injEq] at h
        subst h
        decide
      | n + 2 => simp at h)

/-! ## Predicate trees (`src/sql/query.rs` `Node`, `src/sql/worker.rs`
`table_predicate`)

`Node` has `root`, optional boxed children and the materialized `set` used
by the worker; `Option<Box<Node>>` is embedded as the extra constructor
`nil`.  `table_predicate`'s only failure modes are panics inside
`operator_filter_rows` (its `Result` error path is unreachable), embedded as
`none`. -/

inductive Node where
  | nil
  | node (root : String) (left : Node) (right : Node) (set : List Nat)
deriving DecidableEq

/-- The materialized set of a node (`[]` on an absent node). -/
def Node.setOf : Node → List Nat
  | .nil => []
  | .node _ _ _ s => s

/-- The right child of a node. -/
def Node.rightOf : Node → Node
  | .nil => .nil
  | .node _ _ r _ => r

/-- `table_predicate` (`worker.rs`): post-order traversal; when both
children are present leaves, `and`/`or` combine the children's sets and a
comparison root filters rows and collapses the node to a leaf; every other
node (including `not`, which never has a left child) is left with its `set`
unchanged. -/
def table_predicate (tb : Table) : Node → Option (Table × Node)
  | .nil => some (tb, .nil)
  | .node root l r set =>
    match table_predicate tb l with
    | none => none
    | some (tb1, l') =>
      match table_predicate tb1 r with
      | none => none
      | some (tb2, r') =>
        match l', r' with
        | .node lroot ll lr2 lset, .node rroot rl rr2 rset =>
          if ll = .nil ∧ lr2 = .nil ∧ rl = .nil ∧ rr2 = .nil then
            if root = "and" then
              some (tb2, .node root (.node lroot ll lr2 lset) (.node rroot rl rr2 rset)
                (setInter lset rset))
            else if root = "or" then
              some (tb2, .node root (.node lroot ll lr2 lset) (.node rroot rl rr2 rset)
                (setUnion lset rset))
            else
              match tb2.operator_filter_rows lroot root rroot with
              | none => none
              | some (tb3, s) => some (tb3, .node root .nil .nil s)
          else some (tb2, .node root (.node lroot ll lr2 lset) (.node rroot rl rr2 rset) set)
        | l', r' => some (tb2, .node root l' r' set)

/-! ## Claim C4 — `NOT` nodes in `table_predicate` -/

/-- Two index sets with the same members. -/
def sameSet (a b : List Nat) : Prop := ∀ i, i ∈ a ↔ i ∈ b

/-- Claim C4 exactly as stated: evaluating a `NOT` node whose right child
carries an evaluated set yields the complement of that set with respect to
the full row-index set. -/
def C4_statedClaim : Prop :=
  ∀ (tb : Table) (r : Node) (set : List Nat) (tb' : Table) (n' : Node),
    table_predicate tb (.node "not" .nil r set) = some (tb', n') →
    sameSet n'.setOf (setDiff tb.get_all_rows_set n'.rightOf.setOf)

/-- The fixture for claim C4: a two-row `Int` table and the predicate
`not (a1 = 1)`. -/
def c4Table : Table :=
  { Table.new "t1" with
      fields := [("a1", Field.new "a1" .int)],
      rows := [⟨[("a1", "1")], true, false⟩, ⟨[("a1", "2")], true, false⟩] }

/-- Claim C4, counterexample: on `c4Table`, `not (a1 = 1)` evaluates the
comparison to `{0}` but leaves the `NOT` node's set empty — `table_predicate`
has no `NOT` branch at all (its only set computations require both children
present), so the complement `{1}` is never produced. -/
theorem C4_counterexample : ¬ C4_statedClaim := by
  intro h
  have h2 := h c4Table
    (.node "=" (.node "a1" .nil .nil []) (.node "1" .nil .nil []) []) []
    { c4Table with row_set := [0] }
    (.node "not" .nil (.node "=" .nil .nil [0]) [])
    (by decide)
  have h3 := (h2 1).mpr (by decide)
  simp [Node.setOf] at h3

/-- Claim C4 (amended: the evaluator never computes a complement — a `NOT`
node, having no left child, falls through every set-computing branch and
keeps its set unchanged, with its right child evaluated in place): -/
theorem C4_not_left_unchanged (tb : Table) (r : Node) (set : List Nat)
    (tb' : Table) (n' : Node)
    (h : table_predicate tb (.node "not" .nil r set) = some (tb', n')) :
    ∃ r', table_predicate tb r = some (tb', r') ∧ n' = .node "not" .nil r' set := by
  simp only [table_predicate] at h
  rcases hr : table_predicate tb r with _ | ⟨tb2, r'⟩ <;> rw [hr] at h
  · exact absurd h (by simp)
  · cases r' <;>
      · simp only [Option.some.injEq, Prod.mk.injEq] at h
        exact ⟨_, by rw [h.1], h.2.symm⟩

/-- Claim C4, witness: the amended statement evaluated on the `c4Table`
fixture. -/
theorem C4_not_left_unchanged_witness :
    ∃ r', table_predicate c4Table
        (.node "=" (.node "a1" .nil .nil []) (.node "1" .nil .nil []) []) =
      some ({ c4Table with row_set := [0] }, r') ∧
      (Node.node "not" .nil (.node "=" .nil .nil [0]) [] : Node) = .node "not" .nil r' [] :=
  C4_not_left_unchanged c4Table
    (.node "=" (.node "a1" .nil .nil []) (.node "1" .nil .nil []) []) []
    { c4Table with row_set := [0] }
    (.node "not" .nil (.node "=" .nil .nil [0]) [])
    (by decide)

/-! ## Claim C6 — dirty-row collection in `Pool::hierarchic_check`

`hierarchic_check` (`pool.rs:149-169`) collects the dirty rows of a table
with

```
let mut new_row: Vec<Row> = table.rows.clone();
let l = new_row.len();
for i in 0..l {
    if !new_row[i].is_dirty {
        // remove rows which are not dirty
        new_row.remove(i);
    }
}
```

`new_row.remove(i)` shifts the suffix left while `i` keeps counting to the
*original* length, so `new_row[i]` indexes out of bounds — a Rust panic —
as soon as any removal happened before the last iteration.  The loop is
embedded with the panic as `none`. -/

namespace Pool

/-- The `for i in 0..l` loop above: `n` iterations remain, `i` is the
index; an out-of-bounds `new_row[i]` is `none`. -/
def collectGo : Nat → Nat → List Row → Option (List Row)
  | 0, _, cur => some cur
  | n + 1, i, cur =>
    match cur.get? i with
    | none => none
    | some r =>
      if r.is_dirty then collectGo n (i + 1) cur
      else collectGo n (i + 1) (cur.eraseIdx i)

/-- The dirty-row collection step of `hierarchic_check` for one table. -/
def collect_still_dirty (rows : List Row) : Option (List Row) :=
  collectGo rows.length 0 rows

end Pool

/-- Claim C6: the collection loop panics on `[dirty, clean, dirty]` (after
removing the clean row at index 1 the loop indexes position 2 of a
two-element vector), so `append_rows` is never reached — while the dirty
subsequence the claim (and the loop's own comment) promises is the two dirty
rows.  On the fixture the embedded loop returns `none` (panic), not the
filter of `is_dirty`. -/
theorem C6_dirty_collection_crashes :
    Pool.collect_still_dirty
      [⟨[("a", "1")], true, false⟩, ⟨[("a", "2")], false, false⟩,
        ⟨[("a", "3")], true, false⟩] = none ∧
    List.filter (fun r => r.is_dirty)
      [Row.mk [("a", "1")] true false, Row.mk [("a", "2")] false false,
        Row.mk [("a", "3")] true false] =
      [Row.mk [("a", "1")] true false, Row.mk [("a", "3")] true false] :=
  ⟨rfl, rfl⟩

/-! ## Symbols and tokens (`src/sql/symbol.rs`) -/

inductive Token where
  | Add | AddConstraint | AlterColumn | AlterTable | All | Any | As | Asc | Between
  | Case | Check | Column | Constraint | Create | CreateDatabase | CreateIndex
  | CreateOrReplaceView | CreateTable | CreateProcedure | CreateUniqueIndex | CreateView
  | Database | Default | Delete | Desc | Distinct | DropColumn | DropConstraint
  | DropDatabase | DropDefault | DropIndex | DropTable | DropView | Exec | Exists
  | ForeignKey | From | FullOuterJoin | GroupBy | Having | In | Index | InnerJoin
  | InsertInto | IsNull | IsNotNull | LeftJoin | Like | Limit | NotNull | OrderBy
  | Percent | PrimaryKey | Procedure | RightJoin | Rownum | Select | Set | Table
  | Top | TruncateTable | Union | UnionAll | Unique | Update | Values | View | Where
  | Avg | Count | Max | Min | Sum
  | Char | Double | Float | Int | Varchar
  | LT | LE | EQ | NE | GT | GE | AND | NOT | OR
  | ParentLeft | ParentRight | Comma | Semicolon
  | Identifier
  | Encrypt
deriving DecidableEq

inductive Group where
  | DataType | Function | Keyword | Operator | Identifier | Delimiter
deriving DecidableEq

structure Symbol where
  name : String
  len : Nat
  token : Token
  group : Group
deriving DecidableEq

/-- `symbol::sym`. -/
def sym (name : String) (token : Token) (group : Group) : Symbol :=
  ⟨name, name.length, token, group⟩

/-- The static `SYMBOLS` table as a lookup function. -/
def SYMBOLS (s : String) : Option Symbol :=
  match s with
  | "add" => some (sym "add" .Add .Keyword)
  | "add constraint" => some (sym "add constraint" .AddConstraint .Keyword)
  | "alter column" => some (sym "alter column" .AlterColumn .Keyword)
  | "alter table" => some (sym "alter table" .AlterTable .Keyword)
  | "all" => some (sym "all" .All .Keyword)
  | "any" => some (sym "any" .Any .Keyword)
  | "as" => some (sym "as" .As .Keyword)
  | "asc" => some (sym "asc" .Asc .Keyword)
  | "between" => some (sym "between" .Between .Keyword)
  | "case" => some (sym "case" .Case .Keyword)
  | "check" => some (sym "check" .Check .Keyword)
  | "column" => some (sym "column" .Column .Keyword)
  | "constraint" => some (sym "constraint" .Constraint .Keyword)
  | "create" => some (sym "create" .Create .Keyword)
  | "create database" => some (sym "create database" .CreateDatabase .Keyword)
  | "create index" => some (sym "create index" .CreateIndex .Keyword)
  | "create or replace view" => some (sym "create or replace view" .CreateOrReplaceView .Keyword)
  | "create table" => some (sym "create table" .CreateTable .Keyword)
  | "create procedure" => some (sym "create procedure" .CreateProcedure .Keyword)
  | "create unique index" => some (sym "create unique index" .CreateUniqueIndex .Keyword)
  | "create view" => some (sym "create view" .CreateView .Keyword)
  | "database" => some (sym "database" .Database .Keyword)
  | "default" => some (sym "default" .Default .Keyword)
  | "delete" => some (sym "delete" .Delete .Keyword)
  | "desc" => some (sym "desc" .Desc .Keyword)
  | "distinct" => some (sym "distinct" .Distinct .Keyword)
  | "drop column" => some (sym "drop column" .DropColumn .Keyword)
  | "drop constraint" => some (sym "drop constraint" .DropConstraint .Keyword)
  | "drop database" => some (sym "drop database" .DropDatabase .Keyword)
  | "drop default" => some (sym "drop default" .DropDefault .Keyword)
  | "drop index" => some (sym "drop index" .DropIndex .Keyword)
  | "drop table" => some (sym "drop table" .DropTable .Keyword)
  | "drop view" => some (sym "drop view" .DropView .Keyword)
  | "exec" => some (sym "exec" .Exec .Keyword)
  | "exists" => some (sym "exists" .Exists .Keyword)
  | "foreign key" => some (sym "foreign key" .ForeignKey .Keyword)
  | "from" => some (sym "from" .From .Keyword)
  | "full outer join" => some (sym "full outer join" .FullOuterJoin .Keyword)
  | "group by" => some (sym "group by" .GroupBy .Keyword)
  | "having" => some (sym "having" .Having .Keyword)
  | "in" => some (sym "in" .In .Keyword)
  | "index" => some (sym "index" .Index .Keyword)
  | "inner join" => some (sym "inner join" .InnerJoin .Keyword)
  | "insert into" => some (sym "insert into" .InsertInto .Keyword)
  | "is null" => some (sym "is null" .IsNull .Keyword)
  | "is not null" => some (sym "is not null" .IsNotNull .Keyword)
  | "left join" => some (sym "left join" .LeftJoin .Keyword)
  | "like" => some (sym "like" .Like .Keyword)
  | "limit" => some (sym "limit" .Limit .Keyword)
  | "not null" => some (sym "not null" .NotNull .Keyword)
  | "order by" => some (sym "order by" .OrderBy .Keyword)
  | "percent" => some (sym "percent" .Percent .Keyword)
  | "primary key" => some (sym "primary key" .PrimaryKey .Keyword)
  | "procedure" => some (sym "procedure" .Procedure .Keyword)
  | "right join" => some (sym "right join" .RightJoin .Keyword)
  | "rownum" => some (sym "rownum" .Rownum .Keyword)
  | "select" => some (sym "select" .Select .Keyword)
  | "set" => some (sym "set" .Set .Keyword)
  | "table" => some (sym "table" .Table .Keyword)
  | "top" => some (sym "top" .Top .Keyword)
  | "truncate table" => some (sym "truncate table" .TruncateTable .Keyword)
  | "union" => some (sym "union" .Union .Keyword)
  | "union all" => some (sym "union all" .UnionAll .Keyword)
  | "unique" => some (sym "unique" .Unique .Keyword)
  | "update" => some (sym "update" .Update .Keyword)
  | "values" => some (sym "values" .Values .Keyword)
  | "view" => some (sym "view" .View .Keyword)
  | "where" => some (sym "where" .Where .Keyword)
  | "avg" => some (sym "avg" .Avg .Function)
  | "count" => some (sym "count" .Count .Function)
  | "max" => some (sym "max" .Max .Function)
  | "min" => some (sym "min" .Min .Function)
  | "sum" => some (sym "sum" .Sum .Function)
  | "char" => some (sym "char" .Char .DataType)
  | "double" => some (sym "double" .Double .DataType)
  | "float" => some (sym "float" .Float .DataType)
  | "int" => some (sym "int" .Int .DataType)
  | "varchar" => some (sym "varchar" .Varchar .DataType)
  | ">" => some (sym ">" .GT .Operator)
  | ">=" => some (sym ">=" .GE .Operator)
  | "=" => some (sym "=" .EQ .Operator)
  | "!=" => some (sym "!=" .NE .Operator)
  | "<>" => some (sym "<>" .NE .Operator)
  | "<" => some (sym "<" .LT .Operator)
  | "<=" => some (sym "<=" .LE .Operator)
  | "and" => some (sym "and" .AND .Operator)
  | "not" => some (sym "not" .NOT .Operator)
  | "or" => some (sym "or" .OR .Operator)
  | "encrypt" => some (sym "encrypt" .Encrypt .Keyword)
  | _ => none

/-- `Symbol::match_delimiter`. -/
def match_delimiter (ch : Char) : Option Symbol :=
  if ch = '(' then some (sym "(" .ParentLeft .Delimiter)
  else if ch = ')' then some (sym ")" .ParentRight .Delimiter)
  else if ch = ',' then some (sym "," .Comma .Delimiter)
  else if ch = ';' then some (sym ";" .Semicolon .Delimiter)
  else none

/-- `symbol::check_multi_keywords_front`. -/
def check_multi_keywords_front (s : String) : Option (List Nat) :=
  match s with
  | "add" => some [2]
  | "alter" => some [2]
  | "create" => some [2, 3, 4]
  | "drop" => some [2]
  | "foreign" => some [2]
  | "full" => some [2]
  | "group" => some [2]
  | "inner" => some [2]
  | "insert" => some [2]
  | "is" => some [2, 3]
  | "left" => some [2]
  | "not" => some [2]
  | "order" => some [2]
  | "outer" => some [2]
  | "primary" => some [2]
  | "right" => some [2]
  | "select" => some [2]
  | "truncate" => some [2]
  | "union" => some [2]
  | _ => none

/-! ## Errors of the SQL front-end -/

inductive LexerError where
  | notAllowedChar
deriving DecidableEq

inductive DatabaseError where
  | causedByFile
deriving DecidableEq

inductive SQLError where
  | causerByDatabase (e : DatabaseError)
  | semanticError (msg : String)
deriving DecidableEq

inductive ParserError where
  | causeByLexer (e : LexerError)
  | tokenLengthZero
  | syntaxError (msg : String)
  | sqlErr (e : SQLError)
  | panicked
deriving DecidableEq

/-! ## Claim C8 — infix → postfix conversion (`parse_infix_postfix`,
`parser.rs:389-445`)

The source declares `let mut parent_counter = 0;` *inside* the scan loop, so
the counter is re-initialized to 0 on every iteration; the final
`if parent_counter > 0 { return Err(SyntaxError) }` compares the freshly
reset 0 and can never fire, and an unmatched `)` simply drains the stack.
The embedding keeps the dead check with its reset value. -/

/-- The `)`-handler: pop to the output until a `(` (or silently stop on an
empty stack); returns the remaining stack and the extended output. -/
def popToParen (stack output : List Symbol) : List Symbol × List Symbol :=
  match stack with
  | [] => ([], output)
  | s :: rest => if s.token = .ParentLeft then (rest, output) else popToParen rest (output ++ [s])

/-- `operator_priority`. -/
def operator_priority (t : Token) : Nat :=
  match t with
  | .NOT => 2
  | .AND => 1
  | .OR => 1
  | _ => 3

/-- The operator handler: pop operators of priority ≥ the incoming one. -/
def popGePrio (x : Symbol) (stack output : List Symbol) : List Symbol × List Symbol :=
  match stack with
  | [] => ([], output)
  | s :: rest =>
    if s.group = .Operator ∧ operator_priority x.token ≤ operator_priority s.token then
      popGePrio x rest (output ++ [s])
    else (s :: rest, output)

/-- The scan loop of `parse_infix_postfix`; the stack grows at its head. -/
def rpnGo (stack output : List Symbol) : List Symbol → Except ParserError (List Symbol)
  | [] =>
    -- `parent_counter` was re-initialized to 0 on this iteration (the
    -- declaration sits inside the loop), so this check is dead code
    if (0 : Nat) > 0 then .error (.syntaxError "invalid predicate syntax")
    else .ok (output ++ stack)
  | x :: xs =>
    if x.token = .ParentLeft then rpnGo (x :: stack) output xs
    else if x.token = .ParentRight then
      match popToParen stack output with
      | (st, out) => rpnGo st out xs
    else if x.group = .Operator then
      match popGePrio x stack output with
      | (st, out) => rpnGo (x :: st) out xs
    else rpnGo stack (output ++ [x]) xs

/-- `parse_infix_postfix`. -/
def parse_infix_rpn (symbols : List Symbol) : Except ParserError (List Symbol) :=
  rpnGo [] [] symbols

/-- Claim C8: on the WHERE bodies `( a1` (unmatched `(`) and `a1 )`
(unmatched `)`) the conversion returns `Ok` — the first even leaks the `(`
symbol into the postfix output — instead of the syntax error the claim and
the dead check in the source intend. -/
theorem C8_unmatched_paren_accepted :
    parse_infix_rpn [sym "(" .ParentLeft .Delimiter, sym "a1" .Identifier .Identifier] =
      .ok [sym "a1" .Identifier .Identifier, sym "(" .ParentLeft .Delimiter] ∧
    parse_infix_rpn [sym "a1" .Identifier .Identifier, sym ")" .ParentRight .Delimiter] =
      .ok [sym "a1" .Identifier .Identifier] :=
  ⟨rfl, rfl⟩

/-! ## The wire protocol (`src/connection/request.rs`)

`Request::parse` splits the line on the two-character separator `"||"`
(Rust `str::split`: leftmost non-overlapping matches, empty pieces kept).
The disk side of `user_verify` (`File::get_usernames` /
`File::create_username`) is taken as oracle parameters. -/

inductive RequestError where
  | poolErr
  | causeByParserReq
  | fileErr
  | userNotExist (name : List Char)
  | createDBBeforeCmd
  | badRequest
deriving DecidableEq

/-- Rust `split("||")` scan: accumulate the current piece (reversed) and cut
at each leftmost `"||"`. -/
def splitGo (cur : List Char) : List Char → List (List Char)
  | [] => [cur.reverse]
  | c :: l =>
    if c = '|' ∧ l.head? = some '|' then cur.reverse :: splitGo [] l.tail
    else splitGo (c :: cur) l
termination_by l => l.length
decreasing_by
  · cases l <;> simp_all <;> omega
  · simp

/-- `input.split("||")`. -/
def splitPipes (s : List Char) : List (List Char) := splitGo [] s

theorem splitGo_no_pipe (u : List Char) (cur : List Char) (h : '|' ∉ u) :
    splitGo cur u = [cur.reverse ++ u] := by
  induction u generalizing cur with
  | nil => simp [splitGo]
  | cons c u' ih =>
    have hc : ¬ c = '|' := fun hh => h (hh ▸ List.mem_cons_self c u')
    rw [splitGo, if_neg (by tauto), ih _ (fun hm => h (List.mem_cons_of_mem c hm))]
    simp

theorem splitGo_append_sep (u rest : List Char) (cur : List Char) (h : '|' ∉ u) :
    splitGo cur (u ++ '|' :: '|' :: rest) = (cur.reverse ++ u) :: splitGo [] rest := by
  induction u generalizing cur with
  | nil =>
    rw [List.nil_append, splitGo, if_pos ⟨rfl, rfl⟩]
    simp
  | cons c u' ih =>
    have hc : ¬ c = '|' := fun hh => h (hh ▸ List.mem_cons_self c u')
    rw [List.cons_append, splitGo, if_neg (by tauto),
      ih _ (fun hm => h (List.mem_cons_of_mem c hm))]
    simp

theorem splitGo_sep (rest : List Char) :
    splitGo [] ('|' :: '|' :: rest) = [] :: splitGo [] rest := by
  have h := splitGo_append_sep [] rest [] (by simp)
  simpa using h

/-- `Request::user_verify`, with the username catalog and the
user-registration outcome as oracles. -/
def user_verify (diskUsers : Option (List (List Char))) (diskCreateOk : Bool)
    (name : List Char) : Except RequestError Unit :=
  if name = [] then .error (.userNotExist name)
  else
    match diskUsers with
    | none => .error .fileErr
    | some users =>
      if name ∈ users then .ok ()
      else if diskCreateOk then .ok () else .error .fileErr

/-- The first-request (login) branch of `Request::parse`: the line must
split into exactly four `"||"`-fields with the middle two empty; then the
user is verified/registered and `Login OK!` is returned. -/
def request_parse_first (diskUsers : Option (List (List Char))) (diskCreateOk : Bool)
    (input : List Char) : Except RequestError String :=
  match splitPipes input with
  | [username, f1, f2, _key] =>
    if f1 = [] ∧ f2 = [] then
      match user_verify diskUsers diskCreateOk username with
      | .ok _ => .ok "Login OK!"
      | .error e => .error e
    else .error .badRequest
  | _ => .error .badRequest

/-! ## Claim C9 — the login line format -/

/-- Claim C9 exactly as stated: a first request line `u||||k` — the user
name, FOUR pipe characters, the key — is accepted and answered
`Login OK!` (granting the claim ideal disk behaviour and a registered,
pipe-free, nonempty user name). -/
def C9_statedClaim : Prop :=
  ∀ (users : List (List Char)) (createOk : Bool) (u k : List Char),
    u ≠ [] → '|' ∉ u → '|' ∉ k → u ∈ users →
    request_parse_first (some users) createOk (u ++ '|' :: '|' :: '|' :: '|' :: k) =
      .ok "Login OK!"

/-- Claim C9, counterexample: `u||||k` contains only two `"||"` separators,
so it splits into THREE fields `["u", "", "k"]` and `Request::parse`
answers `BadRequest` — the code's own comment documents the login line as
`username||||||key`, six pipes. -/
theorem C9_counterexample : ¬ C9_statedClaim := by
  intro h
  have h2 := h [['u']] true ['u'] ['k'] (by simp) (by simp) (by simp) (by simp)
  have hsplit : splitPipes (['u'] ++ '|' :: '|' :: '|' :: '|' :: ['k']) =
      [['u'], [], ['k']] := by
    unfold splitPipes
    rw [splitGo_append_sep ['u'] _ [] (by simp), splitGo_sep,
      splitGo_no_pipe ['k'] [] (by simp)]
    simp
  unfold request_parse_first at h2
  rw [hsplit] at h2
  simp at h2

/-- Claim C9 (amended: the login line is `u||||||k` — six pipes, i.e. three
`"||"` separators producing exactly four fields with the middle two empty):
for every nonempty pipe-free user name and pipe-free key, the first request
line is accepted and answered `Login OK!`, provided the user-catalog read
succeeds and the user is registered or registration succeeds. -/
theorem C9_login_six_pipes (users : List (List Char)) (createOk : Bool) (u k : List Char)
    (hu : u ≠ []) (hup : '|' ∉ u) (hkp : '|' ∉ k)
    (hreg : u ∈ users ∨ createOk = true) :
    request_parse_first (some users) createOk
      (u ++ '|' :: '|' :: '|' :: '|' :: '|' :: '|' :: k) = .ok "Login OK!" := by
  have hsplit : splitPipes (u ++ '|' :: '|' :: '|' :: '|' :: '|' :: '|' :: k) =
      [u, [], [], k] := by
    unfold splitPipes
    rw [splitGo_append_sep u _ [] hup, splitGo_sep, splitGo_sep, splitGo_no_pipe k [] hkp]
    simp
  unfold request_parse_first
  rw [hsplit]
  rcases hreg with hmem | hcreate
  · simp [user_verify, hu, hmem]
  · by_cases hmem : u ∈ users
    · simp [user_verify, hu, hmem]
    · simp [user_verify, hu, hmem, hcreate]

/-- Claim C9, witness: the amended login format at `user = "bob"`,
`key = "7"`. -/
theorem C9_login_six_pipes_witness :
    request_parse_first (some [['b', 'o', 'b']]) false
      (['b', 'o', 'b'] ++ '|' :: '|' :: '|' :: '|' :: '|' :: '|' :: ['7']) =
      .ok "Login OK!" :=
  C9_login_six_pipes [['b', 'o', 'b']] false ['b', 'o', 'b'] ['7']
    (by simp) (by simp) (by simp) (Or.inl (by simp))

/-! ## `Database`, `User`, `QueryData` and the `SQL` worker
(`src/component/database.rs`, `src/sql/worker.rs`, `src/sql/query.rs`)

`query.rs` in this snapshot has no `set` field on `Node`, while `worker.rs`
reads and writes one; the embedding follows the worker (the authority for
the evaluation claims) and gives `Node` the `set`.  `QueryData`'s
`sort_dir`/`top` slots carry an `f32` payload and are never consulted by any
embedded operation; they are omitted. -/

structure User where
  name : String
  key : Int
deriving DecidableEq

/-- `User::new`. -/
def User.new (username : String) : User := ⟨username, 0⟩

structure Database where
  name : String
  tables : List (String × Table)
  is_dirty : Bool
  is_delete : Bool
deriving DecidableEq

/-- `Database::new`. -/
def Database.new (name : String) : Database := ⟨name, [], true, false⟩

/-- `Database::insert_new_table`. -/
def Database.insert_new_table (db : Database) (table : Table) : Database :=
  { db with tables := alInsert db.tables table.name table }

inductive JoinType where
  | innerJoin | fullOuterJoin | rightJoin | leftJoin
deriving DecidableEq

structure Join where
  join_type : JoinType
  table : String
  condition : Node
deriving DecidableEq

structure QueryData where
  fields : List String
  tables : List String
  joins : List Join
  predicate : Node
  group_fields : List String
  aggregation_fn : List String
  sort_fields : List String
  is_distinct : Bool
deriving DecidableEq

/-- `QueryData::new`. -/
def QueryData.new : QueryData := ⟨[], [], [], .nil, [], [], [], false⟩

/-- The `SQL` session of `worker.rs`. -/
structure SQLw where
  user : User
  database : Database
  querydata : QueryData
  result_json : String
deriving DecidableEq

/-- `SQL::new`. -/
def SQLw.new (username : String) : SQLw :=
  ⟨User.new username, Database.new "", QueryData.new, ""⟩

/-- `SQL::create_database`. -/
def SQLw.create_database (sql : SQLw) (db_name : String) : SQLw :=
  { sql with database := Database.new db_name }

/-- `SQL::create_table`. -/
def SQLw.create_table (sql : SQLw) (table : Table) : SQLw :=
  { sql with database := sql.database.insert_new_table table }

/-- The Rust `Display` text of a `TableError`. -/
def tableErrorMsg : TableError → String
  | .insertFieldNotExisted a => "Insert Error: the table doesn't have `" ++ a ++ "` attribute."
  | .insertFieldNotNullMismatched a => "Insert Error: " ++ a ++ " could not be null"
  | .insertFieldDefaultMismatched a =>
    "Insert Error: " ++ a ++ " has no default value. Need to declare the value."
  | .selectFieldNotExisted a => "Selected field not exists: " ++ a
  | .keyNotExist => "encrypt error: public key is not existed"

/-- The `for row in rows` loop of `insert_into_table`: the table keeps every
row pushed before a failure (the Rust loop mutates the table through
`get_mut` and returns early).  The parser guarantees each tuple has exactly
`attrs.len()` values, so the `(attrs[i], row[i])` pairing is `attrs.zip`. -/
def insertLoop (attrs : List String) (t : Table) :
    List (List String) → Table × Option SQLError
  | [] => (t, none)
  | row :: rest =>
    match t.insert_row (attrs.zip row) with
    | .ok t' => insertLoop attrs t' rest
    | .error e => (t, some (.semanticError (tableErrorMsg e)))

/-- `SQL::insert_into_table`. -/
def SQLw.insert_into_table (sql : SQLw) (table_name : String) (attrs : List String)
    (rows : List (List String)) : SQLw × Option SQLError :=
  match alGet sql.database.tables table_name with
  | none => (sql, some (.semanticError "table not exists"))
  | some table =>
    let table :=
      if table.public_key = 0 then { table with public_key := sql.user.key } else table
    match insertLoop attrs table rows with
    | (t', e?) =>
      ({ sql with database :=
          { sql.database with tables := alInsert sql.database.tables table_name t' } }, e?)

/-! ## Claim C7 — multi-tuple INSERT is not atomic -/

theorem alGet_alInsert_self (m : List (String × α)) (k : String) (v : α) :
    alGet (alInsert m k v) k = some v := by
  induction m with
  | nil => simp [alInsert, alGet]
  | cons p rest ih =>
    unfold alInsert
    split
    · simp [alGet]
    · rename_i hne
      unfold alGet List.find?
      simp only [hne]
      exact ih

/-- The rows of the longest prefix of `rows` each of which `insert_row`
accepts (each tuple's acceptance depends only on the fields and the key,
never on earlier rows). -/
def okRowsOf (fields : List (String × Field)) (pk : Int) (attrs : List String)
    (rows : List (List String)) : List Row :=
  (rows.takeWhile (fun v => (buildRow fields pk (attrs.zip v)).toOption.isSome)).filterMap
    (fun v => (buildRow fields pk (attrs.zip v)).toOption)

theorem insertLoop_error (attrs : List String) (rows : List (List String)) (t t' : Table)
    (e : SQLError) (h : insertLoop attrs t rows = (t', some e)) :
    t'.fields = t.fields ∧ t'.public_key = t.public_key ∧
    t'.rows = t.rows ++ okRowsOf t.fields t.public_key attrs rows := by
  induction rows generalizing t with
  | nil => exact absurd h (by simp [insertLoop])
  | cons row rest ih =>
    unfold insertLoop at h
    unfold Table.insert_row at h
    rcases hb : buildRow t.fields t.public_key (attrs.zip row) with _ | r <;> rw [hb] at h
    · simp only [Prod.mk.injEq] at h
      refine ⟨by rw [← h.1], by rw [← h.1], ?_⟩
      rw [← h.1]
      unfold okRowsOf
      rw [List.takeWhile_cons_of_neg (by simp [hb, Except.toOption])]
      simp
    · simp only at h
      obtain ⟨hf, hp, hr⟩ := ih _ h
      refine ⟨hf, hp, ?_⟩
      rw [hr]
      unfold okRowsOf
      rw [List.takeWhile_cons_of_pos (by simp [hb, Except.toOption])]
      simp only [List.filterMap_cons, hb, Except.toOption, Option.toList]
      simp [List.append_assoc]

/-- Claim C7 exactly as stated: if inserting any tuple of a multi-tuple
`INSERT` fails, the statement adds no rows at all. -/
def C7_statedClaim : Prop :=
  ∀ (sql : SQLw) (tn : String) (attrs : List String) (rows : List (List String))
    (sql' : SQLw) (e : SQLError),
    SQLw.insert_into_table sql tn attrs rows = (sql', some e) →
    ∀ t t', alGet sql.database.tables tn = some t →
      alGet sql'.database.tables tn = some t' → t'.rows = t.rows

/-- The fixture for claim C7: one `NOT NULL` `Int` column without default. -/
def c7Table : Table :=
  { Table.new "t1" with fields := [("a1", { Field.new "a1" .int with not_null := true })] }

/-- The session holding `c7Table`. -/
def c7sql : SQLw :=
  { SQLw.new "u" with database := { Database.new "db1" with tables := [("t1", c7Table)] } }

/-- The session after `INSERT INTO t1(a1) VALUES (1),(null)` fails on the
second tuple: the first tuple's row is still there. -/
def c7sqlAfter : SQLw :=
  { c7sql with database :=
    { c7sql.database with tables :=
      [("t1", { c7Table with rows := [⟨[("a1", "1")], true, false⟩] })] } }

/-- Claim C7, counterexample: `INSERT INTO t1(a1) VALUES (1),(null)` fails
on the second tuple (`NOT NULL` violated) yet the first tuple's row remains
in the table: the statement is not atomic. -/
theorem C7_counterexample : ¬ C7_statedClaim := by
  intro h
  have h2 := h c7sql "t1" ["a1"] [["1"], ["null"]] c7sqlAfter
    (.semanticError (tableErrorMsg (.insertFieldNotNullMismatched "a1")))
    (by decide) c7Table { c7Table with rows := [⟨[("a1", "1")], true, false⟩] }
    (by decide) (by decide)
  exact absurd h2 (by decide)

/-- Claim C7 (amended: an error aborts the statement from the failing tuple
on, but the tuples before it are already inserted and remain in the table):
when `insert_into_table` fails, the target table afterwards holds exactly
its old rows followed by the rows of the longest accepted prefix of the
tuple list. -/
theorem C7_partial_insert (sql : SQLw) (tn : String) (attrs : List String)
    (rows : List (List String)) (sql' : SQLw) (e : SQLError) (t : Table)
    (h : SQLw.insert_into_table sql tn attrs rows = (sql', some e))
    (ht : alGet sql.database.tables tn = some t) :
    ∃ t', alGet sql'.database.tables tn = some t' ∧
      t'.rows = t.rows ++
        okRowsOf t.fields (if t.public_key = 0 then sql.user.key else t.public_key)
          attrs rows := by
  unfold SQLw.insert_into_table at h
  rw [ht] at h
  simp only [] at h
  by_cases hpk : t.public_key = 0
  · rw [if_pos hpk] at h ⊢
    rcases hl : insertLoop attrs { t with public_key := sql.user.key } rows with ⟨t2, e?⟩
    rw [hl] at h
    simp only [Prod.mk.injEq] at h
    obtain ⟨hsql, he⟩ := h
    subst he
    obtain ⟨_, _, hr⟩ := insertLoop_error attrs rows _ _ _ hl
    refine ⟨t2, ?_, ?_⟩
    · rw [← hsql]
      exact alGet_alInsert_self _ _ _
    · exact hr
  · rw [if_neg hpk] at h ⊢
    rcases hl : insertLoop attrs t rows with ⟨t2, e?⟩
    rw [hl] at h
    simp only [Prod.mk.injEq] at h
    obtain ⟨hsql, he⟩ := h
    subst he
    obtain ⟨_, _, hr⟩ := insertLoop_error attrs rows _ _ _ hl
    refine ⟨t2, ?_, ?_⟩
    · rw [← hsql]
      exact alGet_alInsert_self _ _ _
    · exact hr

/-- Claim C7, witness: the amended statement on the `(1),(null)` fixture —
the error leaves exactly the first tuple's row in the table. -/
theorem C7_partial_insert_witness :
    ∃ t', alGet c7sqlAfter.database.tables "t1" = some t' ∧
      t'.rows = c7Table.rows ++
        okRowsOf c7Table.fields
          (if c7Table.public_key = 0 then c7sql.user.key else c7Table.public_key)
          ["a1"] [["1"], ["null"]] :=
  C7_partial_insert c7sql "t1" ["a1"] [["1"], ["null"]] c7sqlAfter
    (.semanticError (tableErrorMsg (.insertFieldNotNullMismatched "a1"))) c7Table
    (by decide) (by decide)

/-! ## The LRU session pool (`src/manager/pool.rs`)

The pool maps client addresses to workers (`BTreeMap<String, SQL>`; an
association list here) next to a recency list (`VecDeque`, most recent at
the front).  The disk side of `hierarchic_check` is the oracle `hc`;
`SQL::new` and `load_database` inside `get` are the oracles `mkW`/`loadDb`
(`loadDb = none` is a failing load).  The worker type is a parameter `σ`:
nothing in the pool bookkeeping inspects the worker.  The two `unwrap`s on
the recency list (`freelist.pop_back().unwrap()`, `freelist[0]`) are Rust
panics, embedded as the error `crash`. -/

structure Pool (σ : Type) where
  max_entry : Nat
  freelist : List String
  cache : List (String × σ)
deriving DecidableEq

inductive PoolError where
  | sqlErrorP
  | entryNotExist
  | diskError
  | crash
deriving DecidableEq

/-- `Pool::new`. -/
def Pool.new (σ : Type) (entry_number : Nat) : Pool σ := ⟨entry_number, [], []⟩

/-- `Pool::write_back`: drop the address from the recency list, flush the
worker through `hierarchic_check` (oracle `hc`), drop it from the cache. -/
def Pool.write_back (hc : σ → Bool) (p : Pool σ) (addr : String) :
    Except PoolError (Pool σ) :=
  match alGet p.cache addr with
  | none => .error .entryNotExist
  | some w =>
    if hc w then .ok ⟨p.max_entry, p.freelist.erase addr, alRemove p.cache addr⟩
    else .error .diskError

/-- `Pool::insert`: evict and write back the least-recently-used entry when
full, then insert at the front. -/
def Pool.insert (hc : σ → Bool) (p : Pool σ) (sql : σ) (addr : String) :
    Except PoolError (Pool σ) :=
  if p.max_entry ≤ p.cache.length then
    match p.freelist.getLast? with
    | none => .error .crash
    | some pop_addr =>
      match Pool.write_back hc ⟨p.max_entry, p.freelist.dropLast, p.cache⟩ pop_addr with
      | .error e => .error e
      | .ok p2 => .ok ⟨p2.max_entry, addr :: p2.freelist, alInsert p2.cache addr sql⟩
  else .ok ⟨p.max_entry, addr :: p.freelist, alInsert p.cache addr sql⟩

/-- `Pool::get`: create (and possibly load) a worker on a cache miss,
inserting it; then move the address to the front of the recency list. -/
def Pool.get (hc : σ → Bool) (mkW : String → σ) (loadDb : String → String → Option σ)
    (p : Pool σ) (username dbname addr : String) : Except PoolError (Pool σ) :=
  let step1 : Except PoolError (Pool σ) :=
    if (alGet p.cache addr).isSome then .ok p
    else
      if dbname = "" then Pool.insert hc p (mkW username) addr
      else
        match loadDb username dbname with
        | none => .error .sqlErrorP
        | some w => Pool.insert hc p w addr
  match step1 with
  | .error e => .error e
  | .ok p1 =>
    match p1.freelist.head? with
    | none => .error .crash
    | some front =>
      if front = addr then .ok p1
      else .ok ⟨p1.max_entry, addr :: p1.freelist.erase addr, p1.cache⟩

/-- One client-visible pool operation. -/
inductive PoolOp (σ : Type) where
  | getOp (username dbname addr : String)
  | insertOp (w : σ) (addr : String)

/-- The address an operation touches. -/
def PoolOp.addrOf : PoolOp σ → String
  | .getOp _ _ a => a
  | .insertOp _ a => a

/-- Run one operation. -/
def stepOp (hc : σ → Bool) (mkW : String → σ) (loadDb : String → String → Option σ)
    (p : Pool σ) : PoolOp σ → Except PoolError (Pool σ)
  | .getOp u d a => Pool.get hc mkW loadDb p u d a
  | .insertOp w a => Pool.insert hc p w a

/-- Run a sequence of operations, stopping at the first error. -/
def runOps (hc : σ → Bool) (mkW : String → σ) (loadDb : String → String → Option σ)
    (p : Pool σ) : List (PoolOp σ) → Except PoolError (Pool σ)
  | [] => .ok p
  | op :: rest =>
    match stepOp hc mkW loadDb p op with
    | .error e => .error e
    | .ok p1 => runOps hc mkW loadDb p1 rest

/-- A direct `insert` may only use an address not currently cached. -/
def freshCond (p : Pool σ) : PoolOp σ → Prop
  | .insertOp _ a => alGet p.cache a = none
  | .getOp _ _ _ => True

/-- Every direct `insert` along the run is fresh. -/
def opsFresh (hc : σ → Bool) (mkW : String → σ) (loadDb : String → String → Option σ) :
    Pool σ → List (PoolOp σ) → Prop
  | _, [] => True
  | p, op :: rest =>
    freshCond p op ∧
      ∀ p1, stepOp hc mkW loadDb p op = .ok p1 → opsFresh hc mkW loadDb p1 rest

/-- The LRU bookkeeping invariant of claim C10: the recency list holds
exactly the cached addresses, each once, and the cache respects the
capacity. -/
def PoolInv (p : Pool σ) : Prop :=
  p.freelist.Nodup ∧ (∀ a, a ∈ p.freelist ↔ (alGet p.cache a).isSome) ∧
  p.cache.length ≤ p.max_entry ∧ (p.cache.map Prod.fst).Nodup

/-! ### Association-list lemmas -/

theorem alGet_cons (k' : String) (v' : α) (m : List (String × α)) (a : String) :
    alGet ((k', v') :: m) a = if k' = a then some v' else alGet m a := by
  by_cases h : k' = a
  · have hb : (k' == a) = true := beq_iff_eq.mpr h
    simp [alGet, List.find?, hb, h]
  · have hb : (k' == a) = false := beq_eq_false_iff_ne.mpr h
    simp [alGet, List.find?, hb, h]

theorem alGet_eq_none_iff (m : List (String × α)) (a : String) :
    alGet m a = none ↔ a ∉ m.map Prod.fst := by
  induction m with
  | nil => simp [alGet]
  | cons p rest ih =>
    rcases p with ⟨k', v'⟩
    rw [alGet_cons]
    by_cases h : k' = a
    · subst h
      simp
    · rw [if_neg h, ih]
      simp only [List.map_cons, List.mem_cons]
      constructor
      · intro hna hor
        rcases hor with he | hm
        · exact h he.symm
        · exact hna hm
      · intro hni hm
        exact hni (Or.inr hm)

theorem alGet_isSome_iff (m : List (String × α)) (a : String) :
    (alGet m a).isSome ↔ a ∈ m.map Prod.fst := by
  rw [← not_iff_not, ← alGet_eq_none_iff]
  simp [Option.isSome_iff_ne_none]

theorem alInsert_of_alGet_none (m : List (String × α)) (k : String) (v : α)
    (h : alGet m k = none) : alInsert m k v = m ++ [(k, v)] := by
  induction m with
  | nil => rfl
  | cons p rest ih =>
    rcases p with ⟨k', v'⟩
    rw [alGet_cons] at h
    by_cases hk : k' = k
    · rw [if_pos hk] at h
      exact absurd h (by simp)
    · rw [if_neg hk] at h
      unfold alInsert
      rw [if_neg (by simp [hk]), ih h]
      simp

theorem alGet_alRemove (m : List (String × α)) (k a : String)
    (hn : (m.map Prod.fst).Nodup) :
    alGet (alRemove m k) a = if a = k then none else alGet m a := by
  induction m with
  | nil => simp [alRemove, alGet]
  | cons p rest ih =>
    rcases p with ⟨k', v'⟩
    simp only [List.map_cons, List.nodup_cons] at hn
    unfold alRemove
    by_cases hk : k' = k
    · rw [if_pos (by simp [hk])]
      by_cases ha : a = k
      · rw [if_pos ha, alGet_eq_none_iff]
        rw [ha, ← hk]
        exact hn.1
      · rw [if_neg ha, alGet_cons, if_neg (by rw [hk]; exact fun hh => ha hh.symm)]
    · rw [if_neg (by simp [hk]), alGet_cons, ih hn.2, alGet_cons]
      by_cases ha : a = k
      · rw [if_pos ha, if_pos ha, if_neg (by rw [ha]; exact hk)]
      · rw [if_neg ha, if_neg ha]

theorem keys_alRemove_subset (m : List (String × α)) (k a : String)
    (h : a ∈ (alRemove m k).map Prod.fst) : a ∈ m.map Prod.fst := by
  induction m with
  | nil => simpa [alRemove] using h
  | cons p rest ih =>
    rcases p with ⟨k', v'⟩
    unfold alRemove at h
    by_cases hk : k' = k
    · rw [if_pos (by simp [hk])] at h
      simp only [List.map_cons]
      exact List.mem_cons_of_mem _ h
    · rw [if_neg (by simp [hk])] at h
      simp only [List.map_cons, List.mem_cons] at h ⊢
      rcases h with he | hm
      · exact Or.inl he
      · exact Or.inr (ih hm)

theorem keys_alRemove_nodup (m : List (String × α)) (k : String)
    (hn : (m.map Prod.fst).Nodup) : ((alRemove m k).map Prod.fst).Nodup := by
  induction m with
  | nil => simpa [alRemove] using hn
  | cons p rest ih =>
    rcases p with ⟨k', v'⟩
    simp only [List.map_cons, List.nodup_cons] at hn
    unfold alRemove
    by_cases hk : k' = k
    · rw [if_pos (by simp [hk])]
      exact hn.2
    · rw [if_neg (by simp [hk])]
      simp only [List.map_cons, List.nodup_cons]
      exact ⟨fun hm => hn.1 (keys_alRemove_subset rest k k' hm), ih hn.2⟩

theorem length_alRemove (m : List (String × α)) (k : String)
    (h : (alGet m k).isSome) : (alRemove m k).length + 1 = m.length := by
  induction m with
  | nil => simp [alGet] at h
  | cons p rest ih =>
    rcases p with ⟨k', v'⟩
    rw [alGet_cons] at h
    unfold alRemove
    by_cases hk : k' = k
    · rw [if_pos (by simp [hk])]
      simp
    · rw [if_neg (by simp [hk])]
      rw [if_neg hk] at h
      simp only [List.length_cons]
      rw [ih h]

theorem dropLast_append_of_getLast? (l : List String) (x : String)
    (h : l.getLast? = some x) : l.dropLast ++ [x] = l := by
  cases l with
  | nil => simp at h
  | cons a as =>
    have hne : (a :: as) ≠ [] := by simp
    have h2 := List.dropLast_append_getLast hne
    rw [List.getLast?_eq_getLast _ hne] at h
    injection h with h3
    rw [h3] at h2
    exact h2

theorem alGet_alInsert_fresh (m : List (String × α)) (k : String) (v : α) (a : String)
    (hm : alGet m k = none) :
    alGet (alInsert m k v) a = if k = a then some v else alGet m a := by
  rw [alInsert_of_alGet_none m k v hm]
  induction m with
  | nil => rw [List.nil_append, alGet_cons]
  | cons p rest ih =>
    rcases p with ⟨k', v'⟩
    rw [alGet_cons] at hm
    by_cases hk : k' = k
    · rw [if_pos hk] at hm
      exact absurd hm (by simp)
    · rw [if_neg hk] at hm
      rw [List.cons_append, alGet_cons, ih hm, alGet_cons]
      by_cases ha : k' = a
      · rw [if_pos ha, if_neg (fun hh => hk (hh.trans ha.symm).symm), if_pos ha]
      · rw [if_neg ha, if_neg ha]

/-! ### Invariant preservation -/

theorem insert_inv {σ : Type} (hc : σ → Bool) (p : Pool σ) (w : σ) (addr : String)
    (p' : Pool σ) (hInv : PoolInv p) (hfresh : alGet p.cache addr = none)
    (h : Pool.insert hc p w addr = .ok p') :
    PoolInv p' ∧ p'.freelist.head? = some addr ∧ p'.max_entry = p.max_entry := by
  obtain ⟨hnd, hmem, hlen, hknd⟩ := hInv
  have haddr_not_fl : addr ∉ p.freelist := fun hm => by
    have := (hmem addr).mp hm
    rw [hfresh] at this
    simp at this
  unfold Pool.insert at h
  split at h
  · rename_i hfull
    rcases hlast : p.freelist.getLast? with _ | ℓ <;> rw [hlast] at h
    · exact absurd h (by simp)
    · have hdecomp : p.freelist.dropLast ++ [ℓ] = p.freelist :=
        dropLast_append_of_getLast? _ _ hlast
      have hℓ_fl : ℓ ∈ p.freelist := by rw [← hdecomp]; simp
      have hℓsome : (alGet p.cache ℓ).isSome := (hmem ℓ).mp hℓ_fl
      have hdl_nd : p.freelist.dropLast.Nodup ∧ ℓ ∉ p.freelist.dropLast := by
        have := hnd
        rw [← hdecomp, List.nodup_append] at this
        exact ⟨this.1, fun hm => this.2.2 hm (by simp)⟩
      unfold Pool.write_back at h
      simp only [] at h
      rcases hg : alGet p.cache ℓ with _ | wℓ <;> rw [hg] at h <;> simp only [] at h
      · rw [hg] at hℓsome
        simp at hℓsome
      · rcases hhc : hc wℓ with _ | _ <;> rw [hhc] at h
        · simp at h
        · rw [if_pos rfl] at h
          simp only [] at h
          injection h with h
          subst h
          have herase : p.freelist.dropLast.erase ℓ = p.freelist.dropLast :=
            List.erase_of_not_mem hdl_nd.2
          have haddr_dl : addr ∉ p.freelist.dropLast := fun hm =>
            haddr_not_fl (by rw [← hdecomp]; exact List.mem_append_left _ hm)
          have hrem_addr : alGet (alRemove p.cache ℓ) addr = none := by
            rw [alGet_alRemove _ _ _ hknd]
            split
            · rfl
            · exact hfresh
          have hmem_dl : ∀ a, a ∈ p.freelist.dropLast ↔ a ∈ p.freelist ∧ a ≠ ℓ := by
            intro a
            constructor
            · intro hm
              exact ⟨by rw [← hdecomp]; exact List.mem_append_left _ hm,
                fun he => hdl_nd.2 (he ▸ hm)⟩
            · rintro ⟨hm, hne⟩
              rw [← hdecomp] at hm
              rcases List.mem_append.mp hm with hm | hm
              · exact hm
              · simp at hm
                exact absurd hm hne
          refine ⟨⟨?_, ?_, ?_, ?_⟩, ?_, ?_⟩
          · simp only [List.nodup_cons]
            rw [herase]
            exact ⟨haddr_dl, hdl_nd.1⟩
          · intro a
            rw [herase]
            simp only [List.mem_cons, hmem_dl, hmem]
            rw [alGet_alInsert_fresh _ _ _ _ hrem_addr, alGet_alRemove _ _ _ hknd]
            by_cases ha : addr = a
            · subst ha
              simp
            · rw [if_neg ha]
              by_cases haℓ : a = ℓ
              · subst haℓ
                rw [if_pos rfl]
                constructor
                · rintro (hh | ⟨_, hh⟩)
                  · exact absurd hh.symm ha
                  · exact absurd rfl hh
                · intro hs
                  simp at hs
              · rw [if_neg haℓ]
                constructor
                · rintro (hh | ⟨hs, _⟩)
                  · exact absurd hh.symm ha
                  · exact hs
                · intro hs
                  exact Or.inr ⟨hs, haℓ⟩
          · simp only []
            rw [alInsert_of_alGet_none _ _ _ hrem_addr, List.length_append,
              List.length_singleton]
            have := length_alRemove p.cache ℓ hℓsome
            omega
          · rw [alInsert_of_alGet_none _ _ _ hrem_addr, List.map_append, List.nodup_append]
            refine ⟨keys_alRemove_nodup _ _ hknd, by simp, ?_⟩
            intro a ham hb
            simp only [List.map_cons, List.map_nil, List.mem_singleton] at hb
            subst hb
            rw [alGet_eq_none_iff] at hrem_addr
            exact hrem_addr ham
          · rfl
          · rfl
  · rename_i hnotfull
    injection h with h
    subst h
    refine ⟨⟨?_, ?_, ?_, ?_⟩, rfl, rfl⟩
    · simp only [List.nodup_cons]
      exact ⟨haddr_not_fl, hnd⟩
    · intro a
      simp only [List.mem_cons, hmem]
      rw [alGet_alInsert_fresh _ _ _ _ hfresh]
      by_cases ha : addr = a
      · subst ha
        simp
      · rw [if_neg ha]
        constructor
        · rintro (hh | hs)
          · exact absurd hh.symm ha
          · exact hs
        · intro hs
          exact Or.inr hs
    · simp only []
      rw [alInsert_of_alGet_none _ _ _ hfresh, List.length_append, List.length_singleton]
      omega
    · rw [alInsert_of_alGet_none _ _ _ hfresh, List.map_append, List.nodup_append]
      refine ⟨hknd, by simp, ?_⟩
      intro a ham hb
      simp only [List.map_cons, List.map_nil, List.mem_singleton] at hb
      subst hb
      rw [alGet_eq_none_iff] at hfresh
      exact hfresh ham

theorem get_inv {σ : Type} (hc : σ → Bool) (mkW : String → σ)
    (loadDb : String → String → Option σ) (p : Pool σ) (u d a : String) (p' : Pool σ)
    (hInv : PoolInv p) (h : Pool.get hc mkW loadDb p u d a = .ok p') :
    PoolInv p' ∧ p'.freelist.head? = some a ∧ p'.max_entry = p.max_entry := by
  unfold Pool.get at h
  simp only [] at h
  by_cases hcached : (alGet p.cache a).isSome
  · rw [if_pos hcached] at h
    simp only [] at h
    rcases hhd : p.freelist.head? with _ | front <;> rw [hhd] at h <;> simp only [] at h
    · simp at h
    · by_cases hfr : front = a
      · rw [if_pos hfr] at h
        injection h with h
        subst h
        refine ⟨hInv, ?_, rfl⟩
        rw [hhd, hfr]
      · rw [if_neg hfr] at h
        injection h with h
        subst h
        obtain ⟨hnd, hmem, hlen, hknd⟩ := hInv
        refine ⟨⟨?_, ?_, hlen, hknd⟩, rfl, rfl⟩
        · simp only [List.nodup_cons]
          exact ⟨fun hm => ((hnd.mem_erase_iff).mp hm).1 rfl, hnd.erase a⟩
        · intro b
          simp only [List.mem_cons, hnd.mem_erase_iff]
          constructor
          · rintro (hb | ⟨_, hb⟩)
            · exact hb ▸ hcached
            · exact (hmem b).mp hb
          · intro hs
            by_cases hb : b = a
            · exact Or.inl hb
            · exact Or.inr ⟨hb, (hmem b).mpr hs⟩
  · rw [if_neg hcached] at h
    have hfresh : alGet p.cache a = none := Option.not_isSome_iff_eq_none.mp hcached
    have after : ∀ (w : σ),
        (match Pool.insert hc p w a with
          | .error e => (.error e : Except PoolError (Pool σ))
          | .ok p1 =>
            match p1.freelist.head? with
            | none => .error .crash
            | some front =>
              if front = a then .ok p1
              else .ok ⟨p1.max_entry, a :: p1.freelist.erase a, p1.cache⟩) = .ok p' →
        PoolInv p' ∧ p'.freelist.head? = some a ∧ p'.max_entry = p.max_entry := by
      intro w hmatch
      rcases hins : Pool.insert hc p w a with _ | p1 <;> rw [hins] at hmatch <;>
        simp only [] at hmatch
      · simp at hmatch
      · obtain ⟨hInv1, hhd1, hmax1⟩ := insert_inv hc p w a p1 hInv hfresh hins
        rw [hhd1] at hmatch
        simp only [if_true] at hmatch
        injection hmatch with hmatch
        subst hmatch
        exact ⟨hInv1, hhd1, hmax1⟩
    by_cases hd : d = ""
    · rw [if_pos hd] at h
      exact after (mkW u) h
    · rw [if_neg hd] at h
      rcases hld : loadDb u d with _ | w <;> rw [hld] at h <;> simp only [] at h
      · simp at h
      · exact after w h

theorem step_inv {σ : Type} (hc : σ → Bool) (mkW : String → σ)
    (loadDb : String → String → Option σ) (p : Pool σ) (op : PoolOp σ) (p' : Pool σ)
    (hInv : PoolInv p) (hf : freshCond p op)
    (h : stepOp hc mkW loadDb p op = .ok p') :
    PoolInv p' ∧ p'.freelist.head? = some op.addrOf ∧ p'.max_entry = p.max_entry := by
  cases op with
  | getOp u d a => exact get_inv hc mkW loadDb p u d a p' hInv h
  | insertOp w a => exact insert_inv hc p w a p' hInv hf h

theorem runOps_inv {σ : Type} (hc : σ → Bool) (mkW : String → σ)
    (loadDb : String → String → Option σ) :
    ∀ (ops : List (PoolOp σ)) (p p' : Pool σ), PoolInv p →
      opsFresh hc mkW loadDb p ops → runOps hc mkW loadDb p ops = .ok p' →
      PoolInv p' ∧ (∀ pre op, ops = pre ++ [op] → p'.freelist.head? = some op.addrOf) := by
  intro ops
  induction ops with
  | nil =>
    intro p p' hInv _ hrun
    simp only [runOps] at hrun
    injection hrun with hrun
    subst hrun
    refine ⟨hInv, ?_⟩
    intro pre op hpre
    exact absurd hpre (by simp)
  | cons op rest ih =>
    intro p p' hInv hfresh hrun
    simp only [runOps] at hrun
    rcases hstep : stepOp hc mkW loadDb p op with _ | p1 <;> rw [hstep] at hrun <;>
      simp only [] at hrun
    · simp at hrun
    · simp only [opsFresh] at hfresh
      obtain ⟨hf, hcont⟩ := hfresh
      obtain ⟨hInv1, hhd1, _⟩ := step_inv hc mkW loadDb p op p1 hInv hf hstep
      obtain ⟨hInv', hlast⟩ := ih p1 p' hInv1 (hcont p1 hstep) hrun
      refine ⟨hInv', ?_⟩
      intro pre opL hpre
      cases pre with
      | nil =>
        simp only [List.nil_append] at hpre
        injection hpre with h1 h2
        subst h2
        simp only [runOps] at hrun
        injection hrun with hrun
        subst hrun
        rw [← h1]
        exact hhd1
      | cons q pre' =>
        rw [List.cons_append] at hpre
        injection hpre with h1 h2
        exact hlast pre' opL h2

/-! ## Claim C10 — the pool's LRU bookkeeping -/

/-- Claim C10 exactly as stated: after any Ok-run of `get`/`insert`
operations from a fresh pool of capacity ≥ 1, the cache is within capacity
and the recency list holds exactly the cached addresses, each exactly
once. -/
def C10_statedClaim : Prop :=
  ∀ (σ : Type) (hc : σ → Bool) (mkW : String → σ) (loadDb : String → String → Option σ)
    (n : Nat) (ops : List (PoolOp σ)) (p' : Pool σ),
    1 ≤ n → runOps hc mkW loadDb (Pool.new σ n) ops = .ok p' → PoolInv p'

/-- Claim C10, counterexample: two direct `Pool::insert` calls with the same
address both return Ok, but the second pushes a duplicate onto the recency
list (the cache replaces in place), so the freelist holds `"a"` twice. -/
theorem C10_counterexample : ¬ C10_statedClaim := by
  intro h
  have h2 := h Unit (fun _ => true) (fun _ => ()) (fun _ _ => none) 2
    [.insertOp () "a", .insertOp () "a"] ⟨2, ["a", "a"], [("a", ())]⟩
    (by norm_num) rfl
  exact absurd h2.1 (by decide)

/-- Claim C10 (amended: additionally every direct `Pool::insert` call must
use an address not currently cached, as the calls `Pool::get` makes
internally always do): after any Ok-run from a fresh pool, the cache holds
at most `max_entry` workers, the recency list holds exactly the cached
addresses each exactly once, and the most recently used address sits at the
front. -/
theorem C10_lru_invariant (σ : Type) (hc : σ → Bool) (mkW : String → σ)
    (loadDb : String → String → Option σ) (n : Nat) (ops : List (PoolOp σ)) (p' : Pool σ)
    (hrun : runOps hc mkW loadDb (Pool.new σ n) ops = .ok p')
    (hfresh : opsFresh hc mkW loadDb (Pool.new σ n) ops) :
    PoolInv p' ∧ ∀ pre op, ops = pre ++ [op] → p'.freelist.head? = some op.addrOf := by
  have hInv0 : PoolInv (Pool.new σ n) := by
    refine ⟨by simp [Pool.new], ?_, by simp [Pool.new], by simp [Pool.new]⟩
    intro a
    simp [Pool.new, alGet]
  exact runOps_inv hc mkW loadDb ops (Pool.new σ n) p' hInv0 hfresh hrun

/-- Claim C10, witness: a `get` on a fresh pool of capacity 1 yields a
single cached worker with its address once in the freelist, at the front. -/
theorem C10_lru_invariant_witness :
    PoolInv (⟨1, ["a1"], [("a1", ())]⟩ : Pool Unit) ∧
    (⟨1, ["a1"], [("a1", ())]⟩ : Pool Unit).freelist.head? = some "a1" :=
  ⟨(C10_lru_invariant Unit (fun _ => true) (fun _ => ()) (fun _ _ => none) 1
      [.getOp "u" "" "a1"] ⟨1, ["a1"], [("a1", ())]⟩ rfl
      (by simp only [opsFresh, freshCond]; exact ⟨trivial, fun _ _ => trivial⟩)).1,
   (C10_lru_invariant Unit (fun _ => true) (fun _ => ()) (fun _ _ => none) 1
      [.getOp "u" "" "a1"] ⟨1, ["a1"], [("a1", ())]⟩ rfl
      (by simp only [opsFresh, freshCond]; exact ⟨trivial, fun _ _ => trivial⟩)).2
     [] (.getOp "u" "" "a1") rfl⟩

/-! ## Claim C1 — end-to-end scenario A

The scenario feeds four statements through `Parser::new` (lexer) and
`Parser::parse` against one `SQL` session.  The lexer (`lexer.rs:41-195`)
is embedded below over `List Char`; `Scanner::new` lowercases and trims the
message first (`to_lowercase().trim()`; the scenario statements are ASCII,
where `Char.toLower` / `Char.isWhitespace` agree with the Rust functions).
The scan loop is fuel-based with fuel `length + 1`: every iteration
consumes at least the head character of the remaining input, so the fuel
never runs out (the fuel-0 branch is unreachable). -/

/-- `lexer::is_identifier_char`: `ch.is_digit(10) || ch.is_ascii_alphabetic()
|| '\'' || '.' || '"'`. -/
def is_identifier_char (ch : Char) : Bool :=
  ch.isDigit || ch.isAlpha || ch == '\'' || ch == '.' || ch == '\"'

/-- `lexer::is_delimiter`. -/
def is_delimiter (ch : Char) : Bool :=
  ch == '(' || ch == ')' || ch == ',' || ch == ';'

/-- The whitespace alternatives of the scanner's flush branch
(`' ' | '\t' | '\r' | '\n'`). -/
def is_lexer_space (ch : Char) : Bool :=
  ch == ' ' || ch == '\t' || ch == '\r' || ch == '\n'

/-- The inner test loop of the multi-keyword scan (`lexer.rs:87-122`):
walks the copied remaining characters building `test_str` (started by the
caller as `word ++ " "`), counting consumed characters in `step` and
completed following words in `following`; stops on end of input, on a
non-letter non-space character, or once `following + 1 = target - 1` parts
are collected (the latter two without counting the stopping character). -/
def multiTest (target : Nat) : List Char → List Char → Bool → Nat → Nat → List Char × Nat
  | [], test_str, _, step, _ => (test_str, step)
  | y :: ys, test_str, is_last_letter, step, following =>
    if y.isAlpha then multiTest target ys (test_str ++ [y]) true (step + 1) following
    else if is_lexer_space y then
      (if is_last_letter then
        (if following + 1 == target - 1 then (test_str, step)
         else multiTest target ys (test_str ++ [' ']) false (step + 1) (following + 1))
       else multiTest target ys test_str is_last_letter (step + 1) following)
    else (test_str, step)

/-- The `for keyword_total_parts in parts` loop (`lexer.rs:67-143`): try
each part count in order; on the first `SYMBOLS` hit return the symbol and
the number of characters to skip. -/
def tryParts (word rest : List Char) : List Nat → Option (Symbol × Nat)
  | [] => none
  | target :: targets =>
    match multiTest target rest (word ++ [' ']) false 0 0 with
    | (test_str, step) =>
      match SYMBOLS (String.mk test_str) with
      | some tok => some (tok, step)
      | none => tryParts word rest targets

/-- Flush the buffered word when the scanner meets whitespace or a
delimiter `x` (`lexer.rs:53-165`): empty buffer emits nothing; at
whitespace a multi-keyword is tried first (skipping the matched extra
characters from the remaining input); otherwise the word is a single
keyword or an identifier. -/
def flushWord (x : Char) (word xs : List Char) (tokens : List Symbol) :
    List Symbol × List Char :=
  if word.isEmpty then (tokens, xs)
  else
    match (if !(is_delimiter x) then
             match check_multi_keywords_front (String.mk word) with
             | some parts => tryParts word xs parts
             | none => none
           else none) with
    | some (tok, step) => (tokens ++ [tok], xs.drop step)
    | none =>
      match SYMBOLS (String.mk word) with
      | some tok => (tokens ++ [tok], xs)
      | none => (tokens ++ [sym (String.mk word) .Identifier .Identifier], xs)

/-- The scan loop of `Scanner::scan_tokens` (`lexer.rs:45-193`): identifier
characters extend the buffered word; whitespace and delimiters flush it
(delimiters additionally emit their own symbol); `*` emits an identifier
`*` and discards the buffer (the cursor reset skips the buffered word);
any other character aborts with `NotAllowedChar`.  A word still buffered
at the end of input is dropped, as in the source.  The fuel-0 branch is
unreachable for fuel > input length. -/
def scanGo : Nat → List Char → List Char → List Symbol → Except LexerError (List Symbol)
  | 0, _, _, _ => .error .notAllowedChar
  | _ + 1, [], _, tokens => .ok tokens
  | fuel + 1, x :: xs, word, tokens =>
    if is_identifier_char x then scanGo fuel xs (word ++ [x]) tokens
    else if is_lexer_space x || is_delimiter x then
      match flushWord x word xs tokens with
      | (tokens1, xs1) =>
        scanGo fuel xs1 []
          (match match_delimiter x with
           | some d => tokens1 ++ [d]
           | none => tokens1)
    else if x == '*' then
      scanGo fuel xs [] (tokens ++ [sym "*" .Identifier .Identifier])
    else .error .notAllowedChar

/-- Rust `str::to_lowercase` on the ASCII subset. -/
def rustLower (s : List Char) : List Char := s.map Char.toLower

/-- Rust `str::trim` on the ASCII subset. -/
def rustTrim (s : List Char) : List Char :=
  ((s.dropWhile Char.isWhitespace).reverse.dropWhile Char.isWhitespace).reverse

/-- `Scanner::new` followed by `Scanner::scan_tokens`. -/
def scan_tokens (message : String) : Except LexerError (List Symbol) :=
  match rustTrim (rustLower message.toList) with
  | msg => scanGo (msg.length + 1) msg [] []

/-! ### The parser (`parser.rs`)

The `Peekable<Iter<Symbol>>` is embedded as the `List Symbol` of tokens not
yet consumed; each function returns its result together with the remaining
list.  `ParserError.panicked` stands for the Rust panics in this path
(`unwrap` on an empty node stack); no run below reaches it. -/

/-- `parser::check_id`. -/
def check_id (s : Symbol) : Except ParserError Unit :=
  if s.group ≠ .Identifier then .error (.syntaxError (s.name ++ " is not an"))
  else .ok ()

/-- `DataType::get` (`datatype.rs:11-22`). -/
def DataType.get (s : String) (len : Option Nat) : Option DataType :=
  match len.getD 0 with
  | length =>
    match s with
    | "char" => some (.char length)
    | "double" => some .double
    | "float" => some .float
    | "int" => some .int
    | "varchar" => some (.varchar length)
    | _ => none

/-- Rust `str::parse::<u8>`: an optional `+`, one or more decimal digits,
value at most 255. -/
def parseU8 (s : String) : Option Nat :=
  match (match s.toList with
         | '+' :: rest => parseNatDigits (rest.map Char.toNat)
         | l => parseNatDigits (l.map Char.toNat)) with
  | none => none
  | some n => if n ≤ 255 then some n else none

/-- The loop of `parser::get_id_list`: each round takes an `Identifier`
(else a syntax error, also at end of input) and continues only past a
following comma. -/
def idListGo : List Symbol → List String → Except ParserError (List String × List Symbol)
  | [], _ => .error (.syntaxError "invalid syntax")
  | s :: rest, v =>
    if s.token == .Identifier then
      match rest with
      | c :: rest2 =>
        if c.token == .Comma then idListGo rest2 (v ++ [s.name])
        else .ok (v ++ [s.name], rest)
      | [] => .ok (v ++ [s.name], [])
    else .error (.syntaxError "invalid syntax")

/-- `parser::get_id_list`: with `is_parent` the list is wrapped in
`( ... )`. -/
def get_id_list (syms : List Symbol) (is_parent : Bool) :
    Except ParserError (List String × List Symbol) :=
  if is_parent then
    match syms with
    | pl :: rest =>
      if pl.token == .ParentLeft then
        match idListGo rest [] with
        | .error e => .error e
        | .ok (v, rest2) =>
          match rest2 with
          | pr :: rest3 =>
            if pr.token == .ParentRight then .ok (v, rest3)
            else .error (.syntaxError "invalid syntax")
          | [] => .error (.syntaxError "invalid syntax")
      else .error (.syntaxError "invalid syntax")
    | [] => .error (.syntaxError "invalid syntax")
  else idListGo syms []

/-- The column-property loop of `parser_create_table` (`parser.rs:167-199`):
a comma ends the field (consumed), `)` ends it without being consumed,
`not null` / `default v` / `encrypt` update the field, `check` and
anything else is a syntax error. -/
def colPropsGo (field : Field) : List Symbol → Except ParserError (Field × List Symbol)
  | [] => .error (.syntaxError "")
  | s :: rest =>
    if s.token == .Comma then .ok (field, rest)
    else if s.token == .NotNull then colPropsGo { field with not_null := true } rest
    else if s.token == .Default then
      match rest with
      | d :: rest2 => colPropsGo { field with default := some d.name } rest2
      | [] => .error (.syntaxError "miss default value")
    else if s.token == .Check then .error (.syntaxError "check syntax error")
    else if s.token == .Encrypt then colPropsGo { field with encrypt := true } rest
    else if s.token == .ParentRight then .ok (field, s :: rest)
    else .error (.syntaxError "")

/-- One field of `parser_create_table` (`parser.rs:125-199`): name, type
(with a parenthesized length for `char`/`varchar`), then the property
loop. -/
def parseField : List Symbol → Except ParserError (Field × List Symbol)
  | [] => .error (.syntaxError "miss column name")
  | nameSym :: rest =>
    match rest with
    | [] => .error (.syntaxError "miss column type")
    | typeSym :: rest2 =>
      if typeSym.token == .Varchar || typeSym.token == .Char then
        match rest2 with
        | [] => .error (.syntaxError "invalid syntax")
        | pl :: rest3 =>
          if pl.token == .ParentLeft then
            match rest3 with
            | [] => .error (.syntaxError "miss column type length")
            | lenSym :: rest4 =>
              match parseU8 lenSym.name with
              | none => .error (.syntaxError "type length invalid")
              | some len =>
                match DataType.get typeSym.name (some len) with
                | none => .error (.syntaxError "invalid type")
                | some dt =>
                  match rest4 with
                  | [] => .error (.syntaxError "invalid syntax")
                  | pr :: rest5 =>
                    if pr.token == .ParentRight then
                      colPropsGo (Field.new nameSym.name dt) rest5
                    else .error (.syntaxError "invalid syntax")
          else .error (.syntaxError "invalid syntax")
      else
        match DataType.get typeSym.name none with
        | none => .error (.syntaxError "invalid type")
        | some dt => colPropsGo (Field.new nameSym.name dt) rest2

/-- The field loop of `parser_create_table` (`parser.rs:118-219`), with
fuel (each round consumes at least two symbols; the fuel-0 branch is
unreachable for fuel > input length). -/
def fieldsGo : Nat → Table → List Symbol → Except ParserError (Table × List Symbol)
  | 0, _, _ => .error .panicked
  | _ + 1, _, [] => .error (.syntaxError "")
  | fuel + 1, table, s :: rest =>
    if s.group == .Identifier then
      match parseField (s :: rest) with
      | .error e => .error e
      | .ok (field, rest2) => fieldsGo fuel (table.insert_new_field field) rest2
    else if s.group == .Keyword then .error (.syntaxError "")
    else if s.token == .ParentRight then .ok (table, s :: rest)
    else .error (.syntaxError "")

/-- `parser::parser_create_table`: skip the `create table` symbol, read the
table name, `(`, then the field loop (the final `)` and `;` stay
unconsumed, as in the source). -/
def parser_create_table (syms : List Symbol) : Except ParserError (Table × List Symbol) :=
  match syms.drop 1 with
  | [] => .error (.syntaxError "no table name")
  | nameSym :: rest2 =>
    match check_id nameSym with
    | .error e => .error e
    | .ok _ =>
      match rest2 with
      | [] => .error (.syntaxError "invalid syntax")
      | pl :: rest3 =>
        if pl.token == .ParentLeft then
          fieldsGo (rest3.length + 1) (Table.new nameSym.name) rest3
        else .error (.syntaxError "invalid syntax")

/-- The tuple loop of `parser_insert_into_table` (`parser.rs:244-262`):
`(`-led tuples are read with `get_id_list` and must match the attribute
count; commas are skipped; anything else ends the loop unconsumed. -/
def rowsGo : Nat → List String → List (List String) → List Symbol →
    Except ParserError (List (List String) × List Symbol)
  | 0, _, _, _ => .error .panicked
  | _ + 1, _, rows, [] => .ok (rows, [])
  | fuel + 1, attrs, rows, s :: rest =>
    if s.token == .ParentLeft then
      match get_id_list (s :: rest) true with
      | .error e => .error e
      | .ok (row, rest2) =>
        if attrs.length ≠ row.length then
          .error (.syntaxError "tuple length mismatch definition")
        else rowsGo fuel attrs (rows ++ [row]) rest2
    else if s.token == .Comma then rowsGo fuel attrs rows rest
    else .ok (rows, s :: rest)

/-- `parser::parser_insert_into_table`. -/
def parser_insert_into_table (syms : List Symbol) :
    Except ParserError ((String × List String × List (List String)) × List Symbol) :=
  match syms.drop 1 with
  | [] => .error (.syntaxError "miss table name")
  | nameSym :: rest2 =>
    match check_id nameSym with
    | .error e => .error e
    | .ok _ =>
      match get_id_list rest2 true with
      | .error e => .error e
      | .ok (attrs, rest3) =>
        match rest3 with
        | [] => .error (.syntaxError "invalid syntax")
        | v :: rest4 =>
          if v.token == .Values then
            match rowsGo (rest4.length + 1) attrs [] rest4 with
            | .error e => .error e
            | .ok (rows, rest5) =>
              match rest5 with
              | [] => .error (.syntaxError "invalid syntax")
              | sc :: rest6 =>
                if sc.token == .Semicolon then .ok ((nameSym.name, attrs, rows), rest6)
                else .error (.syntaxError "invalid syntax")
          else .error (.syntaxError "invalid syntax")

/-- The WHERE-body collection of `parse_select` (`parser.rs:294-304`):
take symbols until `group by`, `order by`, `;` or end of input. -/
def collectWhere : List Symbol → List Symbol × List Symbol
  | [] => ([], [])
  | s :: rest =>
    if s.token == .GroupBy || s.token == .OrderBy || s.token == .Semicolon then
      ([], s :: rest)
    else
      match collectWhere rest with
      | (body, rest2) => (s :: body, rest2)

/-- The loop of `parse_postfix_tree` (`parser.rs:337-366`): identifiers
become leaf nodes; `and`/`or` and the comparisons pop right then left,
`not` pops only right (an empty pop is a Rust panic); other operator
tokens are skipped; any non-identifier non-operator symbol is a syntax
error. -/
def postfixTreeGo (stack : List Node) : List Symbol → Except ParserError (List Node)
  | [] => .ok stack
  | s :: rest =>
    if s.group == .Identifier then
      postfixTreeGo (Node.node s.name .nil .nil [] :: stack) rest
    else if s.group == .Operator then
      match s.token with
      | .AND | .OR =>
        match stack with
        | r :: l :: stack2 => postfixTreeGo (Node.node s.name l r [] :: stack2) rest
        | _ => .error .panicked
      | .NOT =>
        match stack with
        | r :: stack2 => postfixTreeGo (Node.node s.name .nil r [] :: stack2) rest
        | _ => .error .panicked
      | .LT | .LE | .EQ | .NE | .GT | .GE =>
        match stack with
        | r :: l :: stack2 => postfixTreeGo (Node.node s.name l r [] :: stack2) rest
        | _ => .error .panicked
      | _ => postfixTreeGo stack rest
    else .error (.syntaxError "invalid predicate syntax")

/-- `parser::parse_postfix_tree`: run the loop, pop the root (an empty
stack is a Rust panic), and require the stack to be empty afterwards. -/
def parse_postfix_tree (syms : List Symbol) : Except ParserError Node :=
  match postfixTreeGo [] syms with
  | .error e => .error e
  | .ok [] => .error .panicked
  | .ok (tree :: stack2) =>
    if stack2.length ≠ 0 then .error (.syntaxError "invalid predicate syntax")
    else .ok tree

/-- `parser::parse_predicate`. -/
def parse_predicate (syms : List Symbol) : Except ParserError Node :=
  match parse_infix_rpn syms with
  | .error e => .error e
  | .ok rpn => parse_postfix_tree rpn

/-- `parser::parse_select` (`parser.rs:279-325`): fields, `from`, tables,
then an optional WHERE body parsed into the predicate tree; the `group by`
and `order by` peeks are TODO stubs in the source and change nothing. -/
def parse_select (syms : List Symbol) : Except ParserError QueryData :=
  match get_id_list (syms.drop 1) false with
  | .error e => .error e
  | .ok (fields, rest2) =>
    match rest2 with
    | [] => .error (.syntaxError "invalid syntax")
    | f :: rest3 =>
      if f.token == .From then
        match get_id_list rest3 false with
        | .error e => .error e
        | .ok (tables, rest4) =>
          match rest4 with
          | [] => .ok { QueryData.new with fields := fields, tables := tables }
          | w :: rest5 =>
            if w.token == .Where then
              match collectWhere rest5 with
              | (body, _) =>
                match parse_predicate body with
                | .error e => .error e
                | .ok tree =>
                  .ok { QueryData.new with
                          fields := fields, tables := tables, predicate := tree }
            else .ok { QueryData.new with fields := fields, tables := tables }
      else .error (.syntaxError "invalid syntax")

/-- `Parser::new`: lex the message; zero tokens are an error. -/
def Parser.new (message : String) : Except ParserError (List Symbol) :=
  match scan_tokens message with
  | .ok tokens => if tokens.length == 0 then .error .tokenLengthZero else .ok tokens
  | .error e => .error (.causeByLexer e)

/-- `Parser::parse` (`parser.rs:54-100`): dispatch on the first token.  The
session is `&mut` in Rust, so the pair keeps the (possibly mutated) session
next to the optional error.  The `Select` branch only stores the parsed
`QueryData` — it never calls `SQL::select`, so `result_json` is not
touched. -/
def Parser.parse (tokens : List Symbol) (sql : SQLw) : SQLw × Option ParserError :=
  match tokens with
  | [] => (sql, some (.syntaxError "miss query"))
  | s :: _ =>
    match s.token with
    | .CreateDatabase =>
      (match tokens.drop 1 with
       | [] => (sql, some (.syntaxError "no db name"))
       | nameSym :: _ =>
         match check_id nameSym with
         | .error e => (sql, some e)
         | .ok _ => (sql.create_database nameSym.name, none))
    | .CreateTable =>
      (match parser_create_table tokens with
       | .error e => (sql, some e)
       | .ok (table, _) => (sql.create_table table, none))
    | .InsertInto =>
      (match parser_insert_into_table tokens with
       | .error e => (sql, some e)
       | .ok ((tn, attrs, rows), _) =>
         match sql.insert_into_table tn attrs rows with
         | (sql2, none) => (sql2, none)
         | (sql2, some e) => (sql2, some (.sqlErr e)))
    | .Select =>
      (match parse_select tokens with
       | .error e => (sql, some e)
       | .ok qd => ({ sql with querydata := qd }, none))
    | _ => (sql, some (.syntaxError "unknown keyword"))

/-- One statement through `Parser::new` + `Parser::parse` (the connection
loop's per-message processing): a lexer failure leaves the session
untouched. -/
def runStatement (sql : SQLw) (message : String) : SQLw × Option ParserError :=
  match Parser.new message with
  | .error e => (sql, some e)
  | .ok tokens => Parser.parse tokens sql

/-! ### Scenario A -/

/-- Statement 1 of scenario A. -/
def c1stmt1 : String := "create database db1;"

/-- Statement 2 of scenario A. -/
def c1stmt2 : String := "create table t1 (a1 int, a2 char(7), a3 double);"

/-- Statement 3 of scenario A. -/
def c1stmt3 : String :=
  "insert into t1(a1,a2,a3) values (1,'aaa',2.1),(2,'aaa',2.2),(3,'bbb',2.3),(4,'bbb',2.4),(5,'bbb',2.5);"

/-- Statement 4 of scenario A. -/
def c1stmt4 : String := "select a1,a2,a3 from t1 where a1 > 2 and a3 < 2.5;"

/-- The session after statement 1. -/
def c1After1 : SQLw := (runStatement (SQLw.new "u1") c1stmt1).1

/-- The session after statement 2. -/
def c1After2 : SQLw := (runStatement c1After1 c1stmt2).1

/-- The session after statement 3. -/
def c1After3 : SQLw := (runStatement c1After2 c1stmt3).1

/-- The token sequence the lexer was meant to produce for statement 4
(`select` keyword, the field identifiers with commas, `from`, `t1`,
`where`, and the predicate `a1 > 2 and a3 < 2.5` with `>`/`<` as the
`SYMBOLS` operator entries): the operators exist in the symbol table, but
`is_identifier_char` rejects `>` and `<` before the table is ever
consulted. -/
def c1SelectTokens : List Symbol :=
  [sym "select" .Select .Keyword,
   sym "a1" .Identifier .Identifier, sym "," .Comma .Delimiter,
   sym "a2" .Identifier .Identifier, sym "," .Comma .Delimiter,
   sym "a3" .Identifier .Identifier,
   sym "from" .From .Keyword,
   sym "t1" .Identifier .Identifier,
   sym "where" .Where .Keyword,
   sym "a1" .Identifier .Identifier, sym ">" .GT .Operator,
   sym "2" .Identifier .Identifier,
   sym "and" .AND .Operator,
   sym "a3" .Identifier .Identifier, sym "<" .LT .Operator,
   sym "2.5" .Identifier .Identifier,
   sym ";" .Semicolon .Delimiter]

/-- The `result_json` the claim (and the repository's own test
`test_select_where_and`) expects after statement 4. -/
def c1ExpectedJson : String :=
  "\x7b\"fields\":[\"a1\",\"a2\",\"a3\"],\"rows\":[[\"3\",\"'bbb'\",\"2.3\"],[\"4\",\"'bbb'\",\"2.4\"]]\x7d"

/-- C1: scenario A does not succeed.  Statements 1-3 (create database,
create table, the five-tuple insert) all go through — afterwards `db1.t1`
holds 5 rows and `result_json` is the empty string — but the lexer rejects
statement 4 with `NotAllowedChar` (`>` and `<` are neither identifier
characters nor whitespace, delimiter or `*`, `lexer.rs:184-186`), so the
session is left unchanged and `result_json` stays `""`, never the expected
JSON.  Moreover, even on the token sequence the lexer was meant to emit,
`Parser::parse`'s `Select` branch only stores the parsed `QueryData` and
never invokes `SQL::select` (`parser.rs:87-91`), so `result_json` remains
`""` also on that path. -/
theorem C1_scenario :
    ((runStatement (SQLw.new "u1") c1stmt1).2 = none ∧
     (runStatement c1After1 c1stmt2).2 = none ∧
     (runStatement c1After2 c1stmt3).2 = none) ∧
    c1After3.result_json = "" ∧
    ((alGet c1After3.database.tables "t1").map fun t => t.rows.length) = some 5 ∧
    scan_tokens c1stmt4 = .error .notAllowedChar ∧
    runStatement c1After3 c1stmt4 = (c1After3, some (.causeByLexer .notAllowedChar)) ∧
    (Parser.parse c1SelectTokens c1After3).2 = none ∧
    (Parser.parse c1SelectTokens c1After3).1.result_json = "" ∧
    c1ExpectedJson ≠ "" :=
  ⟨⟨rfl, rfl, rfl⟩, rfl, rfl, rfl, rfl, rfl, rfl, by decide⟩

end StellarSQL
